import Mathlib

/-!
Verification development for the parking-lot capacity allocator
(`src/ParkingLot.py`).  The Python classes are shallowly embedded as
Lean structures; every mutating Python method becomes a pure function
that returns the method's result together with the updated state.
-/

/-- The vehicle-type constants of the Python class `VehicleType`. -/
def VehicleType.BIKE : String := "BIKE"

/-- `VehicleType.CAR`. -/
def VehicleType.CAR : String := "CAR"

/-- `VehicleType.TRUCK`. -/
def VehicleType.TRUCK : String := "TRUCK"

/-- Python class `Vehicle`: an identifier (`number`) and a type tag. -/
structure Vehicle where
  number : String
  type : String
deriving DecidableEq

/-- Python class `ParkingSpot`: fixed `spot_type`, `row`, `col`, and a
mutable occupancy reference `vehicle` (`None` when free). -/
structure ParkingSpot where
  spot_type : String
  row : Int
  col : Int
  vehicle : Option Vehicle
deriving DecidableEq

/-- `ParkingSpot.is_free`: true iff no vehicle is held. -/
def ParkingSpot.is_free (s : ParkingSpot) : Bool :=
  s.vehicle.isNone

/-- `ParkingSpot.park`: if the spot is free and the types match, bind the
vehicle and return `True`; otherwise return `False`.  The Python method
mutates `self`; here the (possibly) updated spot is returned alongside
the boolean result. -/
def ParkingSpot.park (s : ParkingSpot) (v : Vehicle) : Bool × ParkingSpot :=
  if s.is_free && s.spot_type == v.type then
    (true, { s with vehicle := some v })
  else
    (false, s)

/-- `ParkingSpot.unpark`: return the held vehicle (possibly `None`) and
clear the occupancy reference. -/
def ParkingSpot.unpark (s : ParkingSpot) : Option Vehicle × ParkingSpot :=
  (s.vehicle, { s with vehicle := none })

/-- Python class `ParkingFloor`: a floor number and a 2D grid of
optional spots (`None` marks a grid cell with no spot registered). -/
structure ParkingFloor where
  floor_num : Int
  spots : List (List (Option ParkingSpot))
deriving DecidableEq

/-- `ParkingFloor.get_free_spots`: the number of populated, free grid
cells whose `spot_type` equals `vtype` (the Python generator-sum
`sum(1 for row in spots for spot in row if spot and spot.is_free() and
spot.spot_type == vtype)`). -/
def ParkingFloor.get_free_spots (f : ParkingFloor) (vtype : String) : Nat :=
  (f.spots.map fun row => row.countP fun c =>
      match c with
      | some spot => spot.is_free && spot.spot_type == vtype
      | none => false).sum

/-- The inner loop of both strategies: scan one row left to right,
attempting `spot.park(vehicle)` on each populated cell; stop at the
first success.  Returns the parked spot (if any) together with the
updated row (Python mutates the spot object in place). -/
def parkInRow (v : Vehicle) : List (Option ParkingSpot) →
    Option ParkingSpot × List (Option ParkingSpot)
  | [] => (none, [])
  | c :: rest =>
    match c with
    | some spot =>
      match spot.park v with
      | (true, spot') => (some spot', some spot' :: rest)
      | (false, spot') =>
        let r := parkInRow v rest
        (r.1, some spot' :: r.2)
    | none =>
      let r := parkInRow v rest
      (r.1, none :: r.2)

/-- Scan the rows of a grid in order (row-major), attempting to park in
each row; stop at the first success. -/
def parkInRows (v : Vehicle) : List (List (Option ParkingSpot)) →
    Option ParkingSpot × List (List (Option ParkingSpot))
  | [] => (none, [])
  | row :: rest =>
    match parkInRow v row with
    | (some s, row') => (some s, row' :: rest)
    | (none, row') =>
      let r := parkInRows v rest
      (r.1, row' :: r.2)

/-- Attempt to park somewhere on one floor (row-major scan of its grid). -/
def parkInFloor (v : Vehicle) (f : ParkingFloor) : Option ParkingSpot × ParkingFloor :=
  ((parkInRows v f.spots).1, { f with spots := (parkInRows v f.spots).2 })

/-- `FirstAvailableStrategy.find_spot`: scan the floors in stored order,
row-major within each floor, parking the vehicle at the first spot whose
`park` succeeds.  Returns the parked spot and the updated floors. -/
def firstAvailableFindSpot (v : Vehicle) : List ParkingFloor →
    Option ParkingSpot × List ParkingFloor
  | [] => (none, [])
  | f :: rest =>
    match parkInFloor v f with
    | (some s, f') => (some s, f' :: rest)
    | (none, f') =>
      let r := firstAvailableFindSpot v rest
      (r.1, f' :: r.2)

/-- Comparison used to model Python's stable `sorted(floors,
key=lambda f: f.floor_num)`: the floors are paired with their original
indices (`List.enum`) and ordered lexicographically by
(`floor_num`, original index).  A stable sort by a key is exactly the
sort by this lexicographic order, which is total and antisymmetric on
index-tagged lists, so `mergeSort` with it yields Python's result. -/
def floorOrderLE (a b : Nat × ParkingFloor) : Bool :=
  a.2.floor_num < b.2.floor_num ||
    (a.2.floor_num == b.2.floor_num && a.1 ≤ b.1)

/-- The floors stably sorted in ascending `floor_num` order (ties kept
in insertion order), each still tagged with its original index. -/
def sortedEnumFloors (floors : List ParkingFloor) : List (Nat × ParkingFloor) :=
  (floors.enum).mergeSort floorOrderLE

/-- Scan index-tagged floors in the given order; a successful park on
the floor originally at index `i` updates position `i` of the floors
list (Python iterates aliases of the very same floor objects, so the
mutation lands at the original position). -/
def lowestFloorGo (v : Vehicle) : List (Nat × ParkingFloor) → List ParkingFloor →
    Option ParkingSpot × List ParkingFloor
  | [], fs => (none, fs)
  | (i, f) :: rest, fs =>
    match parkInFloor v f with
    | (some s, f') => (some s, fs.set i f')
    | (none, _) => lowestFloorGo v rest fs

/-- `LowestFloorStrategy.find_spot`: like FirstAvailable, but the floors
are scanned in ascending `floor_num` order (Python's stable `sorted`). -/
def lowestFloorFindSpot (v : Vehicle) (floors : List ParkingFloor) :
    Option ParkingSpot × List ParkingFloor :=
  lowestFloorGo v (sortedEnumFloors floors) floors

/-- The two concrete `ParkingStrategy` subclasses. -/
inductive ParkingStrategy where
  | firstAvailable : ParkingStrategy
  | lowestFloor : ParkingStrategy
deriving DecidableEq

/-- Strategy dispatch for `find_spot(floors, vehicle)`. -/
def ParkingStrategy.find_spot : ParkingStrategy → List ParkingFloor → Vehicle →
    Option ParkingSpot × List ParkingFloor
  | .firstAvailable, floors, v => firstAvailableFindSpot v floors
  | .lowestFloor, floors, v => lowestFloorFindSpot v floors

/-- Python class `ParkingLot`: a name, the ordered floors, a strategy. -/
structure ParkingLot where
  name : String
  floors : List ParkingFloor
  strategy : ParkingStrategy
deriving DecidableEq

/-- `ParkingLot.add_floor`. -/
def ParkingLot.add_floor (lot : ParkingLot) (f : ParkingFloor) : ParkingLot :=
  { lot with floors := lot.floors ++ [f] }

/-- `ParkingLot.park_vehicle`: delegate to the strategy's `find_spot`. -/
def ParkingLot.park_vehicle (lot : ParkingLot) (v : Vehicle) :
    Option ParkingSpot × ParkingLot :=
  ((lot.strategy.find_spot lot.floors v).1,
   { lot with floors := (lot.strategy.find_spot lot.floors v).2 })

/-- One row of the `unpark_vehicle` scan: clear and return the first
occupant whose `number` matches. -/
def unparkInRow (n : String) : List (Option ParkingSpot) →
    Option Vehicle × List (Option ParkingSpot)
  | [] => (none, [])
  | c :: rest =>
    match c with
    | some spot =>
      match spot.vehicle with
      | some u =>
        if u.number == n then
          ((spot.unpark).1, some (spot.unpark).2 :: rest)
        else
          let r := unparkInRow n rest
          (r.1, some spot :: r.2)
      | none =>
        let r := unparkInRow n rest
        (r.1, some spot :: r.2)
    | none =>
      let r := unparkInRow n rest
      (r.1, none :: r.2)

/-- The `unpark_vehicle` scan over the rows of one grid. -/
def unparkInRows (n : String) : List (List (Option ParkingSpot)) →
    Option Vehicle × List (List (Option ParkingSpot))
  | [] => (none, [])
  | row :: rest =>
    match unparkInRow n row with
    | (some u, row') => (some u, row' :: rest)
    | (none, row') =>
      let r := unparkInRows n rest
      (r.1, row' :: r.2)

/-- The `unpark_vehicle` scan over one floor. -/
def unparkInFloor (n : String) (f : ParkingFloor) : Option Vehicle × ParkingFloor :=
  ((unparkInRows n f.spots).1, { f with spots := (unparkInRows n f.spots).2 })

/-- The `unpark_vehicle` scan over the floors. -/
def unparkFloors (n : String) : List ParkingFloor →
    Option Vehicle × List ParkingFloor
  | [] => (none, [])
  | f :: rest =>
    match unparkInFloor n f with
    | (some u, f') => (some u, f' :: rest)
    | (none, f') =>
      let r := unparkFloors n rest
      (r.1, f' :: r.2)

/-- `ParkingLot.unpark_vehicle`: linear scan (floors in stored order,
rows then columns) for the first spot whose occupant's `number` equals
the argument; that spot is cleared via `unpark` and the vehicle
returned; `None` when no such spot exists. -/
def ParkingLot.unpark_vehicle (lot : ParkingLot) (n : String) :
    Option Vehicle × ParkingLot :=
  ((unparkFloors n lot.floors).1,
   { lot with floors := (unparkFloors n lot.floors).2 })

/-- One row of the `search_vehicle` scan. -/
def searchInRow (n : String) (fnum : Int) : List (Option ParkingSpot) → Option String
  | [] => none
  | c :: rest =>
    match c with
    | some spot =>
      match spot.vehicle with
      | some u =>
        if u.number == n then
          some ("Vehicle " ++ n ++ " at Floor " ++ toString fnum ++
            " Spot(" ++ toString spot.row ++ "," ++ toString spot.col ++ ")")
        else searchInRow n fnum rest
      | none => searchInRow n fnum rest
    | none => searchInRow n fnum rest

/-- The `search_vehicle` scan over the rows of one floor. -/
def searchInRows (n : String) (fnum : Int) : List (List (Option ParkingSpot)) → Option String
  | [] => none
  | row :: rest =>
    match searchInRow n fnum row with
    | some msg => some msg
    | none => searchInRows n fnum rest

/-- `ParkingLot.search_vehicle`: read-only scan reporting the location
of the first spot occupied by the given number. -/
def ParkingLot.search_vehicle (lot : ParkingLot) (n : String) : Option String :=
  go lot.floors
where
  go : List ParkingFloor → Option String
  | [] => none
  | f :: rest =>
    match searchInRows n f.floor_num f.spots with
    | some msg => some msg
    | none => go rest

/-- The floor scan of `ParkingLot.count_free_spots`: the count of the
first floor whose `floor_num` matches, `0` when none does. -/
def countFreeFloors (fn : Int) (vtype : String) : List ParkingFloor → Nat
  | [] => 0
  | f :: rest =>
    if f.floor_num == fn then f.get_free_spots vtype
    else countFreeFloors fn vtype rest

/-- `ParkingLot.count_free_spots`. -/
def ParkingLot.count_free_spots (lot : ParkingLot) (fn : Int) (vtype : String) : Nat :=
  countFreeFloors fn vtype lot.floors

/-!
## Predicates and measures used by the specification claims
-/

/-- A grid cell holds a free spot of type `t`. -/
def cellFreeType (t : String) : Option ParkingSpot → Bool
  | some spot => spot.is_free && spot.spot_type == t
  | none => false

/-- Some cell of some floor is free and type-compatible with `v`. -/
def hasFreeCompatible (floors : List ParkingFloor) (v : Vehicle) : Bool :=
  floors.any fun f => f.spots.any fun row => row.any (cellFreeType v.type)

/-- A grid cell holds a spot occupied by a vehicle whose `number` is `n`. -/
def holdsNumber (n : String) : Option ParkingSpot → Bool
  | some spot =>
    match spot.vehicle with
    | some u => u.number == n
    | none => false
  | none => false

/-- Some cell of the row holds a vehicle numbered `n`. -/
def rowHolds (n : String) (row : List (Option ParkingSpot)) : Bool :=
  row.any (holdsNumber n)

/-- Some cell of the floor holds a vehicle numbered `n`. -/
def floorHolds (n : String) (f : ParkingFloor) : Bool :=
  f.spots.any (rowHolds n)

/-- Some cell of some floor holds a vehicle numbered `n`. -/
def floorsHold (n : String) (floors : List ParkingFloor) : Bool :=
  floors.any (floorHolds n)

/-- Number of cells of the row holding a vehicle numbered `n`. -/
def rowNumberCount (n : String) (row : List (Option ParkingSpot)) : Nat :=
  row.countP (holdsNumber n)

/-- Number of cells of the floor holding a vehicle numbered `n`. -/
def floorNumberCount (n : String) (f : ParkingFloor) : Nat :=
  (f.spots.map (rowNumberCount n)).sum

/-- Number of cells across all floors holding a vehicle numbered `n`. -/
def numberCount (n : String) (floors : List ParkingFloor) : Nat :=
  (floors.map (floorNumberCount n)).sum

/-- Total number of free spots of type `t` across all floors. -/
def totalFree (t : String) (floors : List ParkingFloor) : Nat :=
  (floors.map fun f => f.get_free_spots t).sum

/-- Every populated cell of every floor is free. -/
def allFree (floors : List ParkingFloor) : Bool :=
  floors.all fun f => f.spots.all fun row => row.all fun c =>
    match c with
    | some spot => spot.is_free
    | none => true

/-- The grid cell of floor `i`, row `j`, column `k` (`none` when the
indices are out of range; `some none` is an in-range unpopulated cell). -/
def getCell (floors : List ParkingFloor) (i j k : Nat) :
    Option (Option ParkingSpot) :=
  match floors[i]? with
  | some f =>
    match f.spots[j]? with
    | some row => row[k]?
    | none => none
  | none => none

/-- Replace the grid cell of floor `i`, row `j`, column `k` (identity
when the indices are out of range). -/
def setCell (floors : List ParkingFloor) (i j k : Nat)
    (c : Option ParkingSpot) : List ParkingFloor :=
  match floors[i]? with
  | some f =>
    match f.spots[j]? with
    | some row => floors.set i { f with spots := f.spots.set j (row.set k c) }
    | none => floors
  | none => floors

/-- The public operations of the allocator, as claim C1 enumerates them. -/
inductive LotOp where
  | park (v : Vehicle) : LotOp
  | unpark (number : String) : LotOp
  | search (number : String) : LotOp
  | countFree (floor_num : Int) (t : String) : LotOp
deriving DecidableEq

/-- The state reached after one operation.  `search_vehicle` and
`count_free_spots` are read-only scans, so they leave the state as is. -/
def ParkingLot.step (lot : ParkingLot) : LotOp → ParkingLot
  | .park v => (lot.park_vehicle v).2
  | .unpark n => (lot.unpark_vehicle n).2
  | .search _ => lot
  | .countFree _ _ => lot

/-- The states reachable from an all-free lot by operation sequences in
which every parked vehicle's number is fresh (the vehicle does not
already occupy a slot), as the amended claim C9 requires. -/
inductive ReachableFresh : ParkingLot → Prop
  | init (name : String) (floors : List ParkingFloor) (strat : ParkingStrategy)
      (h : allFree floors = true) :
      ReachableFresh { name := name, floors := floors, strategy := strat }
  | park (lot : ParkingLot) (v : Vehicle) (h : ReachableFresh lot)
      (hfresh : floorsHold v.number lot.floors = false) :
      ReachableFresh (lot.park_vehicle v).2
  | unpark (lot : ParkingLot) (n : String) (h : ReachableFresh lot) :
      ReachableFresh (lot.unpark_vehicle n).2

/-!
## Claim-side (specification) definitions, written from the claims' words
-/

/-- Claim C6's selector: the first cell — floors in stored order,
row-major within a floor — that holds a free spot whose type equals the
vehicle's type. -/
def specFirstFree (floors : List ParkingFloor) (v : Vehicle) : Option ParkingSpot :=
  (((floors.map fun f => f.spots.flatten).flatten).find? (cellFreeType v.type)).join

/-- Claim C7's reference configuration: the floors reordered ascending
by `floor_num` with ties kept in insertion order (a stable sort). -/
def stableSortFloors (floors : List ParkingFloor) : List ParkingFloor :=
  ((floors.enum).mergeSort floorOrderLE).map Prod.snd

/-- Claim C8's zone count: the number of grid cells holding a slot that
is free and whose `spot_type` equals `t`; unpopulated cells never count. -/
def specZoneFreeCount (f : ParkingFloor) (t : String) : Nat :=
  (f.spots.flatten.filter (cellFreeType t)).length

/-- Claim C8's allocator count: delegate to the (first) floor whose
`floor_num` equals the requested index, `0` when no floor has it. -/
def specLotFreeCount (lot : ParkingLot) (fn : Int) (t : String) : Nat :=
  match lot.floors.find? fun f => f.floor_num == fn with
  | some f => specZoneFreeCount f t
  | none => 0

/-!
## Concrete fixtures used to instantiate the theorems
-/

/-- A CAR vehicle numbered KA01. -/
def vehA : Vehicle := { number := "KA01", type := VehicleType.CAR }

/-- A free CAR spot at position (0,0). -/
def freeCarSpot : ParkingSpot :=
  { spot_type := VehicleType.CAR, row := 0, col := 0, vehicle := none }

/-- A CAR spot at (0,0) occupied by `vehA`. -/
def occCarSpot : ParkingSpot :=
  { spot_type := VehicleType.CAR, row := 0, col := 0, vehicle := some vehA }

/-- A free BIKE spot at position (0,0). -/
def freeBikeSpot : ParkingSpot :=
  { spot_type := VehicleType.BIKE, row := 0, col := 0, vehicle := none }

/-- One floor, one free CAR spot. -/
def lotOneFree : ParkingLot :=
  { name := "L", floors := [{ floor_num := 0, spots := [[some freeCarSpot]] }],
    strategy := .firstAvailable }

/-- One floor, one CAR spot occupied by `vehA`. -/
def lotOneOcc : ParkingLot :=
  { name := "L", floors := [{ floor_num := 0, spots := [[some occCarSpot]] }],
    strategy := .firstAvailable }

/-- A CAR spot at (0,1) occupied by `vehA`. -/
def occCarSpot2 : ParkingSpot :=
  { spot_type := VehicleType.CAR, row := 0, col := 1, vehicle := some vehA }

/-- One floor, two free CAR spots. -/
def lotTwoFree : ParkingLot :=
  { name := "L",
    floors := [{ floor_num := 0,
                 spots := [[some freeCarSpot,
                            some { spot_type := VehicleType.CAR, row := 0, col := 1,
                                   vehicle := none }]] }],
    strategy := .firstAvailable }

/-!
## List helper lemmas
-/

/-- Reading the element just past a prefix. -/
theorem getAt_append {α : Type} (pre post : List α) (c : α) :
    (pre ++ c :: post)[pre.length]? = some c := by
  induction pre with
  | nil => simp
  | cons a pre ih => simpa using ih

/-- Writing the element just past a prefix. -/
theorem setAt_append {α : Type} (pre post : List α) (c c' : α) :
    (pre ++ c :: post).set pre.length c' = pre ++ c' :: post := by
  induction pre with
  | nil => rfl
  | cons a pre ih => simp [ih]

/-- Any indexed read splits the list around the element read. -/
theorem decomp_of_getElem {α : Type} :
    ∀ (l : List α) (k : Nat) (c : α), l[k]? = some c →
      ∃ pre post, l = pre ++ c :: post ∧ pre.length = k
  | [], k, c, h => by simp at h
  | a :: l, 0, c, h => by
      simp at h
      exact ⟨[], l, by simp [h], rfl⟩
  | a :: l, k + 1, c, h => by
      simp at h
      obtain ⟨pre, post, h1, h2⟩ := decomp_of_getElem l k c h
      exact ⟨a :: pre, post, by simp [h1], by simp [h2]⟩

/-!
## Basic facts about `ParkingSpot.park`
-/

/-- The success condition of `park` is freeness plus exact type match. -/
theorem park_cond_iff {s : ParkingSpot} {v : Vehicle} :
    (s.is_free && s.spot_type == v.type) = true ↔
      s.vehicle = none ∧ s.spot_type = v.type := by
  simp [ParkingSpot.is_free, Option.isNone_iff_eq_none]

/-- `park` on a free, type-matching spot binds the vehicle. -/
theorem park_pos {s : ParkingSpot} {v : Vehicle}
    (h : (s.is_free && s.spot_type == v.type) = true) :
    s.park v = (true, { s with vehicle := some v }) := by
  simp [ParkingSpot.park, h]

/-- `park` otherwise fails and leaves the spot unchanged. -/
theorem park_neg {s : ParkingSpot} {v : Vehicle}
    (h : (s.is_free && s.spot_type == v.type) = false) :
    s.park v = (false, s) := by
  simp [ParkingSpot.park, h]

/-- `cellFreeType` on a populated cell is the `park` success condition. -/
theorem cellFreeType_some {t : String} {spot : ParkingSpot} :
    cellFreeType t (some spot) = (spot.is_free && spot.spot_type == t) := rfl

/-!
## Characterisation of the row-level park scan
-/

/-- A failed row scan leaves the row unchanged and implies that no cell
of the row is free and type-compatible. -/
theorem parkInRow_none {v : Vehicle} {row : List (Option ParkingSpot)}
    (h : (parkInRow v row).1 = none) :
    (parkInRow v row).2 = row ∧ ∀ c ∈ row, cellFreeType v.type c = false := by
  induction row with
  | nil => simp [parkInRow]
  | cons c rest ih =>
    cases c with
    | none =>
      simp only [parkInRow] at h ⊢
      obtain ⟨h1, h2⟩ := ih h
      refine ⟨by simp [h1], ?_⟩
      intro c hc
      rcases List.mem_cons.mp hc with hc | hc
      · simp [hc, cellFreeType]
      · exact h2 c hc
    | some spot =>
      cases hc : (spot.is_free && spot.spot_type == v.type) with
      | false =>
        simp only [parkInRow, park_neg hc] at h ⊢
        obtain ⟨h1, h2⟩ := ih h
        refine ⟨by simp [h1], ?_⟩
        intro c hcm
        rcases List.mem_cons.mp hcm with hcm | hcm
        · simp [hcm, cellFreeType_some, hc]
        · exact h2 c hcm
      | true => simp [parkInRow, park_pos hc] at h

/-- If no cell of the row is free and type-compatible, the row scan
fails and changes nothing. -/
theorem parkInRow_of_noFree {v : Vehicle} {row : List (Option ParkingSpot)}
    (h : ∀ c ∈ row, cellFreeType v.type c = false) :
    parkInRow v row = (none, row) := by
  induction row with
  | nil => rfl
  | cons c rest ih =>
    have hrest : parkInRow v rest = (none, rest) :=
      ih fun c hc => h c (List.mem_cons_of_mem _ hc)
    cases c with
    | none => simp [parkInRow, hrest]
    | some spot =>
      have hc : (spot.is_free && spot.spot_type == v.type) = false := by
        have := h (some spot) (List.mem_cons_self _ _)
        simpa [cellFreeType_some] using this
      simp [parkInRow, park_neg hc, hrest]

/-- A successful row scan parks the vehicle at the first free,
type-compatible cell and changes nothing else. -/
theorem parkInRow_some {v : Vehicle} {row : List (Option ParkingSpot)}
    {s : ParkingSpot} (h : (parkInRow v row).1 = some s) :
    ∃ pre s₀ post, row = pre ++ some s₀ :: post ∧
      s₀.vehicle = none ∧ s₀.spot_type = v.type ∧
      s = { s₀ with vehicle := some v } ∧
      (parkInRow v row).2 = pre ++ some s :: post ∧
      ∀ c ∈ pre, cellFreeType v.type c = false := by
  induction row with
  | nil => simp [parkInRow] at h
  | cons c rest ih =>
    cases c with
    | none =>
      simp only [parkInRow] at h ⊢
      obtain ⟨pre, s₀, post, h1, h2, h3, h4, h5, h6⟩ := ih h
      refine ⟨none :: pre, s₀, post, by simp [h1], h2, h3, h4, by simp [h5], ?_⟩
      intro c hc
      rcases List.mem_cons.mp hc with hc | hc
      · simp [hc, cellFreeType]
      · exact h6 c hc
    | some spot =>
      cases hc : (spot.is_free && spot.spot_type == v.type) with
      | false =>
        simp only [parkInRow, park_neg hc] at h ⊢
        obtain ⟨pre, s₀, post, h1, h2, h3, h4, h5, h6⟩ := ih h
        refine ⟨some spot :: pre, s₀, post, by simp [h1], h2, h3, h4,
          by simp [h5], ?_⟩
        intro c hcm
        rcases List.mem_cons.mp hcm with hcm | hcm
        · simp [hcm, cellFreeType_some, hc]
        · exact h6 c hcm
      | true =>
        obtain ⟨hfree, htype⟩ := park_cond_iff.mp hc
        simp only [parkInRow, park_pos hc] at h ⊢
        refine ⟨[], spot, rest, rfl, hfree, htype, ?_, ?_, by simp⟩
        · simpa using h.symm
        · simp [← h]

/-!
## Characterisation of the rows-level and floors-level park scans
-/

/-- A failed rows scan leaves every row unchanged; no cell anywhere in
the grid is free and type-compatible. -/
theorem parkInRows_none {v : Vehicle} {rows : List (List (Option ParkingSpot))}
    (h : (parkInRows v rows).1 = none) :
    (parkInRows v rows).2 = rows ∧
      ∀ row ∈ rows, ∀ c ∈ row, cellFreeType v.type c = false := by
  induction rows with
  | nil => simp [parkInRows]
  | cons row rest ih =>
    rcases hrow : parkInRow v row with ⟨r1, row'⟩
    cases r1 with
    | some s => simp [parkInRows, hrow] at h
    | none =>
      simp only [parkInRows, hrow] at h ⊢
      obtain ⟨h1, h2⟩ := ih h
      have hrow' : row' = row ∧ ∀ c ∈ row, cellFreeType v.type c = false := by
        have := parkInRow_none (show (parkInRow v row).1 = none by simp [hrow])
        simpa [hrow] using this
      refine ⟨by simp [h1, hrow'.1], ?_⟩
      intro r hr
      rcases List.mem_cons.mp hr with hr | hr
      · exact hr ▸ hrow'.2
      · exact h2 r hr

/-- If no cell of the grid is free and type-compatible, the rows scan
fails and changes nothing. -/
theorem parkInRows_of_noFree {v : Vehicle} {rows : List (List (Option ParkingSpot))}
    (h : ∀ row ∈ rows, ∀ c ∈ row, cellFreeType v.type c = false) :
    parkInRows v rows = (none, rows) := by
  induction rows with
  | nil => rfl
  | cons row rest ih =>
    have hrow : parkInRow v row = (none, row) :=
      parkInRow_of_noFree (h row (List.mem_cons_self _ _))
    have hrest : parkInRows v rest = (none, rest) :=
      ih fun r hr => h r (List.mem_cons_of_mem _ hr)
    simp [parkInRows, hrow, hrest]

/-- A successful rows scan succeeds in exactly one row — the first row
containing a free compatible cell — and leaves the other rows unchanged. -/
theorem parkInRows_some {v : Vehicle} {rows : List (List (Option ParkingSpot))}
    {s : ParkingSpot} (h : (parkInRows v rows).1 = some s) :
    ∃ rpre row rpost, rows = rpre ++ row :: rpost ∧
      (parkInRow v row).1 = some s ∧
      (parkInRows v rows).2 = rpre ++ (parkInRow v row).2 :: rpost ∧
      ∀ r ∈ rpre, ∀ c ∈ r, cellFreeType v.type c = false := by
  induction rows with
  | nil => simp [parkInRows] at h
  | cons row rest ih =>
    rcases hrow : parkInRow v row with ⟨r1, row'⟩
    cases r1 with
    | some s' =>
      simp only [parkInRows, hrow] at h ⊢
      exact ⟨[], row, rest, rfl, by simp [hrow, h], by simp [hrow, h], by simp⟩
    | none =>
      simp only [parkInRows, hrow] at h ⊢
      obtain ⟨rpre, row₁, rpost, h1, h2, h3, h4⟩ := ih h
      have hrow' : row' = row := by
        have := parkInRow_none (show (parkInRow v row).1 = none by simp [hrow])
        simpa [hrow] using this.1
      refine ⟨row :: rpre, row₁, rpost, by simp [h1], h2, by simp [h3, hrow'], ?_⟩
      intro r hr
      rcases List.mem_cons.mp hr with hr | hr
      · subst hr
        have := parkInRow_none (show (parkInRow v r).1 = none by simp [hrow])
        simpa [hrow] using this.2
      · exact h4 r hr

/-- A failed first-available scan leaves every floor unchanged; no cell
on any floor is free and type-compatible. -/
theorem firstAvailable_none {v : Vehicle} {floors : List ParkingFloor}
    (h : (firstAvailableFindSpot v floors).1 = none) :
    (firstAvailableFindSpot v floors).2 = floors ∧
      ∀ f ∈ floors, ∀ row ∈ f.spots, ∀ c ∈ row, cellFreeType v.type c = false := by
  induction floors with
  | nil => simp [firstAvailableFindSpot]
  | cons f rest ih =>
    rcases hf : parkInFloor v f with ⟨r1, f'⟩
    cases r1 with
    | some s => simp [firstAvailableFindSpot, hf] at h
    | none =>
      simp only [firstAvailableFindSpot, hf] at h ⊢
      obtain ⟨h1, h2⟩ := ih h
      have hrows : (parkInRows v f.spots).1 = none := by
        have : (parkInFloor v f).1 = none := by simp [hf]
        simpa [parkInFloor] using this
      obtain ⟨hr1, hr2⟩ := parkInRows_none hrows
      have hf' : f' = f := by
        have : (parkInFloor v f).2 = f' := by simp [hf]
        simp [parkInFloor, hr1] at this
        exact this.symm
      refine ⟨by simp [h1, hf'], ?_⟩
      intro g hg
      rcases List.mem_cons.mp hg with hg | hg
      · exact hg ▸ hr2
      · exact h2 g hg

/-- If no cell anywhere is free and type-compatible, the first-available
scan fails and changes nothing. -/
theorem firstAvailable_of_noFree {v : Vehicle} {floors : List ParkingFloor}
    (h : ∀ f ∈ floors, ∀ row ∈ f.spots, ∀ c ∈ row, cellFreeType v.type c = false) :
    firstAvailableFindSpot v floors = (none, floors) := by
  induction floors with
  | nil => rfl
  | cons f rest ih =>
    have hrows : parkInRows v f.spots = (none, f.spots) :=
      parkInRows_of_noFree (h f (List.mem_cons_self _ _))
    have hf : parkInFloor v f = (none, f) := by
      simp [parkInFloor, hrows]
    have hrest : firstAvailableFindSpot v rest = (none, rest) :=
      ih fun g hg => h g (List.mem_cons_of_mem _ hg)
    simp [firstAvailableFindSpot, hf, hrest]

/-- A successful first-available scan succeeds in exactly one floor —
the first floor containing a free compatible cell — and leaves the
other floors unchanged. -/
theorem firstAvailable_some {v : Vehicle} {floors : List ParkingFloor}
    {s : ParkingSpot} (h : (firstAvailableFindSpot v floors).1 = some s) :
    ∃ fpre f fpost, floors = fpre ++ f :: fpost ∧
      (parkInFloor v f).1 = some s ∧
      (firstAvailableFindSpot v floors).2 = fpre ++ (parkInFloor v f).2 :: fpost ∧
      ∀ g ∈ fpre, ∀ row ∈ g.spots, ∀ c ∈ row, cellFreeType v.type c = false := by
  induction floors with
  | nil => simp [firstAvailableFindSpot] at h
  | cons f rest ih =>
    rcases hf : parkInFloor v f with ⟨r1, f'⟩
    cases r1 with
    | some s' =>
      simp only [firstAvailableFindSpot, hf] at h ⊢
      exact ⟨[], f, rest, rfl, by simp [hf, h], by simp [hf, h], by simp⟩
    | none =>
      simp only [firstAvailableFindSpot, hf] at h ⊢
      obtain ⟨fpre, f₁, fpost, h1, h2, h3, h4⟩ := ih h
      have hrows : (parkInRows v f.spots).1 = none := by
        have : (parkInFloor v f).1 = none := by simp [hf]
        simpa [parkInFloor] using this
      obtain ⟨hr1, hr2⟩ := parkInRows_none hrows
      have hf' : f' = f := by
        have : (parkInFloor v f).2 = f' := by simp [hf]
        simp [parkInFloor, hr1] at this
        exact this.symm
      refine ⟨f :: fpre, f₁, fpost, by simp [h1], h2, by simp [h3, hf'], ?_⟩
      intro g hg
      rcases List.mem_cons.mp hg with hg | hg
      · exact hg ▸ hr2
      · exact h4 g hg

/-!
## Characterisation of the lowest-floor scan
-/

/-- A failed sorted scan leaves the floors unchanged; every scanned
floor rejected the vehicle. -/
theorem lowestFloorGo_none {v : Vehicle} {l : List (Nat × ParkingFloor)}
    {fs : List ParkingFloor} (h : (lowestFloorGo v l fs).1 = none) :
    (lowestFloorGo v l fs).2 = fs ∧ ∀ p ∈ l, (parkInFloor v p.2).1 = none := by
  induction l with
  | nil => simp [lowestFloorGo]
  | cons p rest ih =>
    rcases p with ⟨i, f⟩
    rcases hf : parkInFloor v f with ⟨r1, f'⟩
    cases r1 with
    | some s => simp [lowestFloorGo, hf] at h
    | none =>
      simp only [lowestFloorGo, hf] at h ⊢
      obtain ⟨h1, h2⟩ := ih h
      refine ⟨h1, ?_⟩
      intro p hp
      rcases List.mem_cons.mp hp with hp | hp
      · simp [hp, hf]
      · exact h2 p hp

/-- If every scanned floor rejects the vehicle, the sorted scan fails
and changes nothing. -/
theorem lowestFloorGo_of_noFree {v : Vehicle} {l : List (Nat × ParkingFloor)}
    {fs : List ParkingFloor} (h : ∀ p ∈ l, (parkInFloor v p.2).1 = none) :
    lowestFloorGo v l fs = (none, fs) := by
  induction l with
  | nil => rfl
  | cons p rest ih =>
    rcases p with ⟨i, f⟩
    have hf : (parkInFloor v f).1 = none := h (i, f) (List.mem_cons_self _ _)
    have hrest := ih fun p hp => h p (List.mem_cons_of_mem _ hp)
    rcases hfe : parkInFloor v f with ⟨r1, f'⟩
    cases r1 with
    | some s => simp [hfe] at hf
    | none => simp [lowestFloorGo, hfe, hrest]

/-- A successful sorted scan parks on exactly one of the scanned floors
and writes the updated floor back at its original index. -/
theorem lowestFloorGo_some {v : Vehicle} {l : List (Nat × ParkingFloor)}
    {fs : List ParkingFloor} {s : ParkingSpot}
    (h : (lowestFloorGo v l fs).1 = some s) :
    ∃ i f, (i, f) ∈ l ∧ (parkInFloor v f).1 = some s ∧
      (lowestFloorGo v l fs).2 = fs.set i (parkInFloor v f).2 := by
  induction l with
  | nil => simp [lowestFloorGo] at h
  | cons p rest ih =>
    rcases p with ⟨i, f⟩
    rcases hf : parkInFloor v f with ⟨r1, f'⟩
    cases r1 with
    | some s' =>
      simp only [lowestFloorGo, hf] at h ⊢
      exact ⟨i, f, List.mem_cons_self _ _, by simp [hf, h], by simp [hf, h]⟩
    | none =>
      simp only [lowestFloorGo, hf] at h ⊢
      obtain ⟨i', f₁, h1, h2, h3⟩ := ih h
      exact ⟨i', f₁, List.mem_cons_of_mem _ h1, h2, h3⟩

/-- The spot selected by the sorted scan is the spot the first-available
scan would select on the reordered floor list. -/
theorem lowestFloorGo_fst {v : Vehicle} {l : List (Nat × ParkingFloor)}
    {fs : List ParkingFloor} :
    (lowestFloorGo v l fs).1 = (firstAvailableFindSpot v (l.map Prod.snd)).1 := by
  induction l with
  | nil => simp [lowestFloorGo, firstAvailableFindSpot]
  | cons p rest ih =>
    rcases p with ⟨i, f⟩
    rcases hf : parkInFloor v f with ⟨r1, f'⟩
    cases r1 with
    | some s => simp [lowestFloorGo, firstAvailableFindSpot, hf]
    | none => simp [lowestFloorGo, firstAvailableFindSpot, hf, ih]

/-!
## Unified characterisation of `find_spot` for both strategies
-/

/-- `hasFreeCompatible` spelt out cell by cell. -/
theorem hasFreeCompatible_eq_false_iff {floors : List ParkingFloor} {v : Vehicle} :
    hasFreeCompatible floors v = false ↔
      ∀ f ∈ floors, ∀ row ∈ f.spots, ∀ c ∈ row, cellFreeType v.type c = false := by
  simp [hasFreeCompatible, List.any_eq_false]

/-- Index-tagged membership after the stable sort recovers the original
position of a floor. -/
theorem sortedEnumFloors_mem {floors : List ParkingFloor} {i : Nat}
    {f : ParkingFloor} (h : (i, f) ∈ sortedEnumFloors floors) :
    floors[i]? = some f := by
  have h1 : (i, f) ∈ floors.enum := List.mem_mergeSort.mp h
  exact List.mem_enum_iff_getElem?.mp h1

/-- Every floor occurs, tagged with its index, in the sorted scan list. -/
theorem sortedEnumFloors_mem_of_mem {floors : List ParkingFloor}
    {f : ParkingFloor} (h : f ∈ floors) :
    ∃ i, (i, f) ∈ sortedEnumFloors floors := by
  obtain ⟨i, hlt, hget⟩ := List.mem_iff_getElem.mp h
  refine ⟨i, List.mem_mergeSort.mpr ?_⟩
  exact List.mem_enum_iff_getElem?.mpr (by simp [List.getElem?_eq_getElem hlt, hget])

/-- A failed `find_spot` (either strategy) leaves the floors unchanged,
and means that no free type-compatible cell exists anywhere. -/
theorem findSpot_none {strat : ParkingStrategy} {floors : List ParkingFloor}
    {v : Vehicle} (h : (strat.find_spot floors v).1 = none) :
    (strat.find_spot floors v).2 = floors ∧ hasFreeCompatible floors v = false := by
  cases strat with
  | firstAvailable =>
    have h' : (firstAvailableFindSpot v floors).1 = none := h
    obtain ⟨h1, h2⟩ := firstAvailable_none h'
    exact ⟨h1, hasFreeCompatible_eq_false_iff.mpr h2⟩
  | lowestFloor =>
    have h' : (lowestFloorGo v (sortedEnumFloors floors) floors).1 = none := h
    obtain ⟨h1, h2⟩ := lowestFloorGo_none h'
    refine ⟨h1, hasFreeCompatible_eq_false_iff.mpr ?_⟩
    intro f hf
    obtain ⟨i, hi⟩ := sortedEnumFloors_mem_of_mem hf
    have hfail : (parkInFloor v f).1 = none := h2 (i, f) hi
    have : (parkInRows v f.spots).1 = none := by simpa [parkInFloor] using hfail
    exact (parkInRows_none this).2

/-- If no free type-compatible cell exists, `find_spot` (either
strategy) fails and changes nothing. -/
theorem findSpot_of_noFree {strat : ParkingStrategy} {floors : List ParkingFloor}
    {v : Vehicle} (h : hasFreeCompatible floors v = false) :
    strat.find_spot floors v = (none, floors) := by
  have hcells := hasFreeCompatible_eq_false_iff.mp h
  cases strat with
  | firstAvailable => exact firstAvailable_of_noFree hcells
  | lowestFloor =>
    refine lowestFloorGo_of_noFree ?_
    intro p hp
    rcases p with ⟨i, f⟩
    have hf : f ∈ floors := by
      have h2 := sortedEnumFloors_mem hp
      exact List.mem_iff_getElem?.mpr ⟨i, h2⟩
    have : parkInRows v f.spots = (none, f.spots) :=
      parkInRows_of_noFree (hcells f hf)
    simp [parkInFloor, this]

/-- A successful `find_spot` (either strategy) parks the vehicle at one
grid cell that held a free spot of the vehicle's type, and the only
state change is that cell's spot acquiring the vehicle. -/
theorem findSpot_some {strat : ParkingStrategy} {floors : List ParkingFloor}
    {v : Vehicle} {s : ParkingSpot} (h : (strat.find_spot floors v).1 = some s) :
    ∃ i f j row k s₀,
      floors[i]? = some f ∧ f.spots[j]? = some row ∧ row[k]? = some (some s₀) ∧
      s₀.vehicle = none ∧ s₀.spot_type = v.type ∧
      s = { s₀ with vehicle := some v } ∧
      (strat.find_spot floors v).2 =
        floors.set i { f with spots := f.spots.set j (row.set k (some s)) } := by
  cases strat with
  | firstAvailable =>
    simp only [ParkingStrategy.find_spot] at h ⊢
    obtain ⟨fpre, f, fpost, hfl, hpf, hres, -⟩ := firstAvailable_some (v := v) h
    have hrows : (parkInRows v f.spots).1 = some s := by simpa [parkInFloor] using hpf
    obtain ⟨rpre, row, rpost, hsp, hpr, hrows2, -⟩ := parkInRows_some hrows
    obtain ⟨pre, s₀, post, hrow, hveh, htype, hs, hrow2, -⟩ := parkInRow_some hpr
    refine ⟨fpre.length, f, rpre.length, row, pre.length, s₀, ?_, ?_, ?_, hveh, htype, hs, ?_⟩
    · rw [hfl]; exact getAt_append fpre fpost f
    · rw [hsp]; exact getAt_append rpre rpost row
    · rw [hrow]; exact getAt_append pre post (some s₀)
    · have e1 : row.set pre.length (some s) = (parkInRow v row).2 := by
        rw [hrow2, hrow, setAt_append]
      have e2 : f.spots.set rpre.length (row.set pre.length (some s)) =
          (parkInRows v f.spots).2 := by
        rw [e1, hrows2, hsp, setAt_append]
      have e3 : { f with spots := f.spots.set rpre.length (row.set pre.length (some s)) } =
          (parkInFloor v f).2 := by
        rw [e2]; rfl
      rw [hres, hfl, e3, setAt_append]
  | lowestFloor =>
    simp only [ParkingStrategy.find_spot, lowestFloorFindSpot] at h ⊢
    obtain ⟨i, f, hmem, hpf, hres⟩ := lowestFloorGo_some (v := v) h
    have hget : floors[i]? = some f := sortedEnumFloors_mem hmem
    have hrows : (parkInRows v f.spots).1 = some s := by simpa [parkInFloor] using hpf
    obtain ⟨rpre, row, rpost, hsp, hpr, hrows2, -⟩ := parkInRows_some hrows
    obtain ⟨pre, s₀, post, hrow, hveh, htype, hs, hrow2, -⟩ := parkInRow_some hpr
    refine ⟨i, f, rpre.length, row, pre.length, s₀, hget, ?_, ?_, hveh, htype, hs, ?_⟩
    · rw [hsp]; exact getAt_append rpre rpost row
    · rw [hrow]; exact getAt_append pre post (some s₀)
    · have e1 : row.set pre.length (some s) = (parkInRow v row).2 := by
        rw [hrow2, hrow, setAt_append]
      have e2 : f.spots.set rpre.length (row.set pre.length (some s)) =
          (parkInRows v f.spots).2 := by
        rw [e1, hrows2, hsp, setAt_append]
      have e3 : { f with spots := f.spots.set rpre.length (row.set pre.length (some s)) } =
          (parkInFloor v f).2 := by
        rw [e2]; rfl
      rw [hres, e3]

/-!
## Characterisation of the unpark scan
-/

/-- A free spot with its occupancy field cleared is itself. -/
theorem clear_of_free {s₀ : ParkingSpot} (h : s₀.vehicle = none) :
    { s₀ with vehicle := none } = s₀ := by
  cases s₀
  simp_all

/-- `rowHolds` spelt out cell by cell. -/
theorem rowHolds_eq_false_iff {n : String} {row : List (Option ParkingSpot)} :
    rowHolds n row = false ↔ ∀ c ∈ row, holdsNumber n c = false := by
  simp [rowHolds, List.any_eq_false]

/-- `floorHolds` spelt out row by row. -/
theorem floorHolds_eq_false_iff {n : String} {f : ParkingFloor} :
    floorHolds n f = false ↔ ∀ row ∈ f.spots, rowHolds n row = false := by
  simp [floorHolds, List.any_eq_false, Bool.not_eq_true]

/-- `floorsHold` spelt out floor by floor. -/
theorem floorsHold_eq_false_iff {n : String} {floors : List ParkingFloor} :
    floorsHold n floors = false ↔ ∀ f ∈ floors, floorHolds n f = false := by
  simp [floorsHold, List.any_eq_false, Bool.not_eq_true]

/-- A failed row unpark leaves the row unchanged and means no cell of
the row holds a vehicle numbered `n`. -/
theorem unparkInRow_none {n : String} {row : List (Option ParkingSpot)}
    (h : (unparkInRow n row).1 = none) :
    (unparkInRow n row).2 = row ∧ ∀ c ∈ row, holdsNumber n c = false := by
  induction row with
  | nil => simp [unparkInRow]
  | cons c rest ih =>
    cases c with
    | none =>
      simp only [unparkInRow] at h ⊢
      obtain ⟨h1, h2⟩ := ih h
      refine ⟨by simp [h1], ?_⟩
      intro c hc
      rcases List.mem_cons.mp hc with hc | hc
      · simp [hc, holdsNumber]
      · exact h2 c hc
    | some spot =>
      rcases hveh : spot.vehicle with _ | u
      · simp only [unparkInRow, hveh] at h ⊢
        obtain ⟨h1, h2⟩ := ih h
        refine ⟨by simp [h1], ?_⟩
        intro c hc
        rcases List.mem_cons.mp hc with hc | hc
        · simp [hc, holdsNumber, hveh]
        · exact h2 c hc
      · cases hn : (u.number == n) with
        | false =>
          simp only [unparkInRow, hveh, hn] at h ⊢
          obtain ⟨h1, h2⟩ := ih h
          refine ⟨by simp [h1], ?_⟩
          intro c hc
          rcases List.mem_cons.mp hc with hc | hc
          · simp [hc, holdsNumber, hveh, hn]
          · exact h2 c hc
        | true => simp [unparkInRow, hveh, hn, ParkingSpot.unpark] at h

/-- If no cell of the row holds a vehicle numbered `n`, the row unpark
fails and changes nothing. -/
theorem unparkInRow_of_noHold {n : String} {row : List (Option ParkingSpot)}
    (h : ∀ c ∈ row, holdsNumber n c = false) :
    unparkInRow n row = (none, row) := by
  induction row with
  | nil => rfl
  | cons c rest ih =>
    have hrest := ih fun c hc => h c (List.mem_cons_of_mem _ hc)
    cases c with
    | none => simp [unparkInRow, hrest]
    | some spot =>
      have hc := h (some spot) (List.mem_cons_self _ _)
      rcases hveh : spot.vehicle with _ | u
      · simp [unparkInRow, hveh, hrest]
      · have hn : (u.number == n) = false := by
          simpa [holdsNumber, hveh] using hc
        simp [unparkInRow, hveh, hn, hrest]

/-- A successful row unpark clears exactly the first cell holding a
vehicle numbered `n`, returning that vehicle. -/
theorem unparkInRow_some {n : String} {row : List (Option ParkingSpot)}
    {u : Vehicle} (h : (unparkInRow n row).1 = some u) :
    ∃ pre spot post, row = pre ++ some spot :: post ∧
      spot.vehicle = some u ∧ u.number = n ∧
      (unparkInRow n row).2 = pre ++ some { spot with vehicle := none } :: post ∧
      ∀ c ∈ pre, holdsNumber n c = false := by
  induction row with
  | nil => simp [unparkInRow] at h
  | cons c rest ih =>
    cases c with
    | none =>
      simp only [unparkInRow] at h ⊢
      obtain ⟨pre, spot, post, h1, h2, h3, h4, h5⟩ := ih h
      refine ⟨none :: pre, spot, post, by simp [h1], h2, h3, by simp [h4], ?_⟩
      intro c hc
      rcases List.mem_cons.mp hc with hc | hc
      · simp [hc, holdsNumber]
      · exact h5 c hc
    | some spot =>
      rcases hveh : spot.vehicle with _ | u'
      · simp only [unparkInRow, hveh] at h ⊢
        obtain ⟨pre, spot₁, post, h1, h2, h3, h4, h5⟩ := ih h
        refine ⟨some spot :: pre, spot₁, post, by simp [h1], h2, h3, by simp [h4], ?_⟩
        intro c hc
        rcases List.mem_cons.mp hc with hc | hc
        · simp [hc, holdsNumber, hveh]
        · exact h5 c hc
      · cases hn : (u'.number == n) with
        | false =>
          simp only [unparkInRow, hveh, hn] at h ⊢
          obtain ⟨pre, spot₁, post, h1, h2, h3, h4, h5⟩ := ih h
          refine ⟨some spot :: pre, spot₁, post, by simp [h1], h2, h3, by simp [h4], ?_⟩
          intro c hc
          rcases List.mem_cons.mp hc with hc | hc
          · simp [hc, holdsNumber, hveh, hn]
          · exact h5 c hc
        | true =>
          simp only [unparkInRow, hveh, hn, ParkingSpot.unpark] at h ⊢
          have hu : u' = u := by
            simpa [hveh] using h
          subst hu
          exact ⟨[], spot, rest, rfl, hveh, by simpa using hn, by simp [hveh], by simp⟩

/-- A failed rows unpark leaves the rows unchanged; nothing holds `n`. -/
theorem unparkInRows_none {n : String} {rows : List (List (Option ParkingSpot))}
    (h : (unparkInRows n rows).1 = none) :
    (unparkInRows n rows).2 = rows ∧ ∀ row ∈ rows, rowHolds n row = false := by
  induction rows with
  | nil => simp [unparkInRows]
  | cons row rest ih =>
    rcases hrow : unparkInRow n row with ⟨r1, row'⟩
    cases r1 with
    | some u => simp [unparkInRows, hrow] at h
    | none =>
      simp only [unparkInRows, hrow] at h ⊢
      obtain ⟨h1, h2⟩ := ih h
      obtain ⟨hr1, hr2⟩ := unparkInRow_none (show (unparkInRow n row).1 = none by simp [hrow])
      have hrow' : row' = row := by
        rw [hrow] at hr1
        exact hr1
      refine ⟨by simp [h1, hrow'], ?_⟩
      intro r hr
      rcases List.mem_cons.mp hr with hr | hr
      · exact hr ▸ rowHolds_eq_false_iff.mpr hr2
      · exact h2 r hr

/-- If no cell of the grid holds `n`, the rows unpark fails. -/
theorem unparkInRows_of_noHold {n : String} {rows : List (List (Option ParkingSpot))}
    (h : ∀ row ∈ rows, rowHolds n row = false) :
    unparkInRows n rows = (none, rows) := by
  induction rows with
  | nil => rfl
  | cons row rest ih =>
    have hrow : unparkInRow n row = (none, row) :=
      unparkInRow_of_noHold (rowHolds_eq_false_iff.mp (h row (List.mem_cons_self _ _)))
    have hrest := ih fun r hr => h r (List.mem_cons_of_mem _ hr)
    simp [unparkInRows, hrow, hrest]

/-- A successful rows unpark clears a cell in exactly one row — the
first row holding `n` — and leaves the other rows unchanged. -/
theorem unparkInRows_some {n : String} {rows : List (List (Option ParkingSpot))}
    {u : Vehicle} (h : (unparkInRows n rows).1 = some u) :
    ∃ rpre row rpost, rows = rpre ++ row :: rpost ∧
      (unparkInRow n row).1 = some u ∧
      (unparkInRows n rows).2 = rpre ++ (unparkInRow n row).2 :: rpost ∧
      ∀ r ∈ rpre, rowHolds n r = false := by
  induction rows with
  | nil => simp [unparkInRows] at h
  | cons row rest ih =>
    rcases hrow : unparkInRow n row with ⟨r1, row'⟩
    cases r1 with
    | some u' =>
      simp only [unparkInRows, hrow] at h ⊢
      exact ⟨[], row, rest, rfl, by simp [hrow, h], by simp [hrow, h], by simp⟩
    | none =>
      simp only [unparkInRows, hrow] at h ⊢
      obtain ⟨rpre, row₁, rpost, h1, h2, h3, h4⟩ := ih h
      obtain ⟨hr1, hr2⟩ := unparkInRow_none (show (unparkInRow n row).1 = none by simp [hrow])
      have hrow' : row' = row := by rw [hrow] at hr1; exact hr1
      refine ⟨row :: rpre, row₁, rpost, by simp [h1], h2, by simp [h3, hrow'], ?_⟩
      intro r hr
      rcases List.mem_cons.mp hr with hr | hr
      · exact hr ▸ rowHolds_eq_false_iff.mpr hr2
      · exact h4 r hr

/-- A floor with no holder of `n` unparks to failure, unchanged. -/
theorem unparkInFloor_of_noHold {n : String} {f : ParkingFloor}
    (h : floorHolds n f = false) :
    unparkInFloor n f = (none, f) := by
  have := unparkInRows_of_noHold (floorHolds_eq_false_iff.mp h)
  simp [unparkInFloor, this]

/-- A failed floors unpark leaves the floors unchanged; nothing holds `n`. -/
theorem unparkFloors_none {n : String} {floors : List ParkingFloor}
    (h : (unparkFloors n floors).1 = none) :
    (unparkFloors n floors).2 = floors ∧ floorsHold n floors = false := by
  induction floors with
  | nil => simp [unparkFloors, floorsHold]
  | cons f rest ih =>
    rcases hf : unparkInFloor n f with ⟨r1, f'⟩
    cases r1 with
    | some u => simp [unparkFloors, hf] at h
    | none =>
      simp only [unparkFloors, hf] at h ⊢
      obtain ⟨h1, h2⟩ := ih h
      have hrows : (unparkInRows n f.spots).1 = none := by
        have : (unparkInFloor n f).1 = none := by simp [hf]
        simpa [unparkInFloor] using this
      obtain ⟨hr1, hr2⟩ := unparkInRows_none hrows
      have hf' : f' = f := by
        have : (unparkInFloor n f).2 = f' := by simp [hf]
        simp [unparkInFloor, hr1] at this
        exact this.symm
      refine ⟨by simp [h1, hf'], ?_⟩
      rw [floorsHold_eq_false_iff]
      intro g hg
      rcases List.mem_cons.mp hg with hg | hg
      · exact hg ▸ floorHolds_eq_false_iff.mpr hr2
      · exact (floorsHold_eq_false_iff.mp h2) g hg

/-- A successful floors unpark clears a cell on exactly one floor — the
first floor holding `n` — and leaves the other floors unchanged. -/
theorem unparkFloors_some {n : String} {floors : List ParkingFloor}
    {u : Vehicle} (h : (unparkFloors n floors).1 = some u) :
    ∃ fpre f fpost, floors = fpre ++ f :: fpost ∧
      (unparkInFloor n f).1 = some u ∧
      (unparkFloors n floors).2 = fpre ++ (unparkInFloor n f).2 :: fpost ∧
      ∀ g ∈ fpre, floorHolds n g = false := by
  induction floors with
  | nil => simp [unparkFloors] at h
  | cons f rest ih =>
    rcases hf : unparkInFloor n f with ⟨r1, f'⟩
    cases r1 with
    | some u' =>
      simp only [unparkFloors, hf] at h ⊢
      exact ⟨[], f, rest, rfl, by simp [hf, h], by simp [hf, h], by simp⟩
    | none =>
      simp only [unparkFloors, hf] at h ⊢
      obtain ⟨fpre, f₁, fpost, h1, h2, h3, h4⟩ := ih h
      have hrows : (unparkInRows n f.spots).1 = none := by
        have : (unparkInFloor n f).1 = none := by simp [hf]
        simpa [unparkInFloor] using this
      obtain ⟨hr1, hr2⟩ := unparkInRows_none hrows
      have hf' : f' = f := by
        have : (unparkInFloor n f).2 = f' := by simp [hf]
        simp [unparkInFloor, hr1] at this
        exact this.symm
      refine ⟨f :: fpre, f₁, fpost, by simp [h1], h2, by simp [h3, hf'], ?_⟩
      intro g hg
      rcases List.mem_cons.mp hg with hg | hg
      · exact hg ▸ floorHolds_eq_false_iff.mpr hr2
      · exact h4 g hg

/-!
## Unpark restores a freshly parked vehicle exactly
-/

/-- If no cell of the row holds `n`, parking `u` (numbered `n`) into the
free cell at position `k` and then unparking `n` returns `u` and
restores the row exactly. -/
theorem unparkRestore_row {n : String} {row : List (Option ParkingSpot)}
    {k : Nat} {s₀ : ParkingSpot} {u : Vehicle}
    (hrow : ∀ c ∈ row, holdsNumber n c = false)
    (hk : row[k]? = some (some s₀)) (hfree : s₀.vehicle = none)
    (hu : u.number = n) :
    unparkInRow n (row.set k (some { s₀ with vehicle := some u })) = (some u, row) := by
  induction row generalizing k with
  | nil => simp at hk
  | cons c rest ih =>
    cases k with
    | zero =>
      have hc : c = some s₀ := by simpa using hk
      subst hc
      have hn : (u.number == n) = true := by simp [hu]
      simp [unparkInRow, hn, ParkingSpot.unpark, clear_of_free hfree]
    | succ k =>
      have hk' : rest[k]? = some (some s₀) := by simpa using hk
      have hrest := ih (fun c hc => hrow c (List.mem_cons_of_mem _ hc)) hk'
      have hchead := hrow c (List.mem_cons_self _ _)
      cases c with
      | none => simp [unparkInRow, hrest]
      | some spot =>
        rcases hveh : spot.vehicle with _ | u'
        · simp [unparkInRow, hveh, hrest]
        · have hn : (u'.number == n) = false := by
            simpa [holdsNumber, hveh] using hchead
          simp [unparkInRow, hveh, hn, hrest]

/-- Lifting `unparkRestore_row` to the grid. -/
theorem unparkRestore_rows {n : String} {rows : List (List (Option ParkingSpot))}
    {j : Nat} {row row' : List (Option ParkingSpot)} {u : Vehicle}
    (hrows : ∀ r ∈ rows, rowHolds n r = false)
    (hj : rows[j]? = some row)
    (hrec : unparkInRow n row' = (some u, row)) :
    unparkInRows n (rows.set j row') = (some u, rows) := by
  induction rows generalizing j with
  | nil => simp at hj
  | cons r rest ih =>
    cases j with
    | zero =>
      have hr : r = row := by simpa using hj
      subst hr
      simp [unparkInRows, hrec]
    | succ j =>
      have hj' : rest[j]? = some row := by simpa using hj
      have hrest := ih (fun r hr => hrows r (List.mem_cons_of_mem _ hr)) hj'
      have hrhead : unparkInRow n r = (none, r) :=
        unparkInRow_of_noHold (rowHolds_eq_false_iff.mp (hrows r (List.mem_cons_self _ _)))
      simp [unparkInRows, hrhead, hrest]

/-- Lifting `unparkRestore_row` to the floors. -/
theorem unparkRestore_floors {n : String} {floors : List ParkingFloor}
    {i : Nat} {f f' : ParkingFloor} {u : Vehicle}
    (hfls : ∀ g ∈ floors, floorHolds n g = false)
    (hi : floors[i]? = some f)
    (hrec : unparkInFloor n f' = (some u, f)) :
    unparkFloors n (floors.set i f') = (some u, floors) := by
  induction floors generalizing i with
  | nil => simp at hi
  | cons g rest ih =>
    cases i with
    | zero =>
      have hg : g = f := by simpa using hi
      subst hg
      simp [unparkFloors, hrec]
    | succ i =>
      have hi' : rest[i]? = some f := by simpa using hi
      have hrest := ih (fun g hg => hfls g (List.mem_cons_of_mem _ hg)) hi'
      have hghead : unparkInFloor n g = (none, g) :=
        unparkInFloor_of_noHold (hfls g (List.mem_cons_self _ _))
      simp [unparkFloors, hghead, hrest]

/-!
## Reading and writing single cells
-/

/-- `setCell` in the in-range case. -/
theorem setCell_eq_of {floors : List ParkingFloor} {i j k : Nat}
    {x : Option ParkingSpot} {f : ParkingFloor} {row : List (Option ParkingSpot)}
    (hi : floors[i]? = some f) (hj : f.spots[j]? = some row) :
    setCell floors i j k x =
      floors.set i { f with spots := f.spots.set j (row.set k x) } := by
  simp [setCell, hi, hj]

/-- `getCell` in the in-range case. -/
theorem getCell_eq_of {floors : List ParkingFloor} {i j k : Nat}
    {f : ParkingFloor} {row : List (Option ParkingSpot)}
    (hi : floors[i]? = some f) (hj : f.spots[j]? = some row) :
    getCell floors i j k = row[k]? := by
  simp [getCell, hi, hj]

/-- Writing one cell does not disturb any other cell. -/
theorem getCell_setCell_ne {floors : List ParkingFloor} {i j k a b c : Nat}
    {x : Option ParkingSpot} (hne : ¬(i = a ∧ j = b ∧ k = c)) :
    getCell (setCell floors i j k x) a b c = getCell floors a b c := by
  rcases hi : floors[i]? with _ | f
  · simp [setCell, hi]
  rcases hj : f.spots[j]? with _ | row
  · simp [setCell, hi, hj]
  rw [setCell_eq_of hi hj]
  have hilen : i < floors.length := (List.getElem?_eq_some.mp hi).1
  have hjlen : j < f.spots.length := (List.getElem?_eq_some.mp hj).1
  by_cases hia : i = a
  · subst hia
    have ha : (floors.set i { f with spots := f.spots.set j (row.set k x) })[i]? =
        some { f with spots := f.spots.set j (row.set k x) } := by
      simp [List.getElem?_set, hilen]
    by_cases hjb : j = b
    · subst hjb
      have hb : (f.spots.set j (row.set k x))[j]? = some (row.set k x) := by
        simp [List.getElem?_set, hjlen]
      have hkc : ¬ k = c := fun hkc => hne ⟨rfl, rfl, hkc⟩
      rw [getCell_eq_of ha hb, getCell_eq_of hi hj, List.getElem?_set, if_neg hkc]
    · have hb : (f.spots.set j (row.set k x))[b]? = f.spots[b]? := by
        rw [List.getElem?_set, if_neg hjb]
      simp [getCell, ha, hb, hi]
  · have ha : (floors.set i { f with spots := f.spots.set j (row.set k x) })[a]? =
        floors[a]? := by
      rw [List.getElem?_set, if_neg hia]
    simp [getCell, ha]

/-- Writing the cell that was read gives back the written value. -/
theorem getCell_setCell_eq {floors : List ParkingFloor} {i j k : Nat}
    {c₀ x : Option ParkingSpot} (h : getCell floors i j k = some c₀) :
    getCell (setCell floors i j k x) i j k = some x := by
  rcases hi : floors[i]? with _ | f
  · simp [getCell, hi] at h
  rcases hj : f.spots[j]? with _ | row
  · simp [getCell, hi, hj] at h
  rw [getCell_eq_of hi hj] at h
  have hilen : i < floors.length := (List.getElem?_eq_some.mp hi).1
  have hjlen : j < f.spots.length := (List.getElem?_eq_some.mp hj).1
  have hklen : k < row.length := (List.getElem?_eq_some.mp h).1
  rw [setCell_eq_of hi hj]
  have ha : (floors.set i { f with spots := f.spots.set j (row.set k x) })[i]? =
      some { f with spots := f.spots.set j (row.set k x) } := by
    simp [List.getElem?_set, hilen]
  have hb : (f.spots.set j (row.set k x))[j]? = some (row.set k x) := by
    simp [List.getElem?_set, hjlen]
  rw [getCell_eq_of ha hb, List.getElem?_set]
  simp [hklen]

/-!
## Counting consequences of park and unpark
-/

/-- A successful park removes exactly one free spot of the vehicle's
type (and none of any other type). -/
theorem park_totalFree {strat : ParkingStrategy} {floors : List ParkingFloor}
    {v : Vehicle} {s : ParkingSpot} (h : (strat.find_spot floors v).1 = some s)
    (t : String) :
    totalFree t (strat.find_spot floors v).2 + (if v.type == t then 1 else 0) =
      totalFree t floors := by
  obtain ⟨i, f, j, row, k, s₀, hi, hj, hk, hveh, htype, hs, hres⟩ := findSpot_some h
  obtain ⟨fpre, fpost, hfl, hleni⟩ := decomp_of_getElem _ _ _ hi
  obtain ⟨rpre, rpost, hsp, hlenj⟩ := decomp_of_getElem _ _ _ hj
  obtain ⟨pre, post, hrow, hlenk⟩ := decomp_of_getElem _ _ _ hk
  have hsetrow : row.set k (some s) = pre ++ some s :: post := by
    rw [hrow, ← hlenk, setAt_append]
  have hsetsp : f.spots.set j (row.set k (some s)) =
      rpre ++ (pre ++ some s :: post) :: rpost := by
    rw [hsetrow, hsp, ← hlenj, setAt_append]
  have hsetfl : floors.set i { f with spots := f.spots.set j (row.set k (some s)) } =
      fpre ++ { f with spots := rpre ++ (pre ++ some s :: post) :: rpost } :: fpost := by
    rw [hsetsp, hfl, ← hleni, setAt_append]
  rw [hres, hsetfl, hfl]
  have hfspots : f = { f with spots := rpre ++ (pre ++ some s₀ :: post) :: rpost } := by
    rw [← hrow, ← hsp]
  rw [hfspots]
  have hfree₀ : s₀.is_free = true := by simp [ParkingSpot.is_free, hveh]
  have hfree₁ : s.is_free = false := by simp [hs, ParkingSpot.is_free]
  simp only [totalFree, ParkingFloor.get_free_spots, List.map_append, List.map_cons,
    List.sum_append, List.sum_cons, List.countP_append, List.countP_cons,
    hfree₀, hfree₁, htype, Bool.true_and, Bool.false_and, if_false]
  cases hvt : (v.type == t) <;> (simp [hvt]; try omega)

/-- A successful park adds exactly one cell holding the vehicle's
number (and no cell holding any other number). -/
theorem park_numberCount {strat : ParkingStrategy} {floors : List ParkingFloor}
    {v : Vehicle} {s : ParkingSpot} (h : (strat.find_spot floors v).1 = some s)
    (m : String) :
    numberCount m (strat.find_spot floors v).2 =
      numberCount m floors + (if v.number == m then 1 else 0) := by
  obtain ⟨i, f, j, row, k, s₀, hi, hj, hk, hveh, htype, hs, hres⟩ := findSpot_some h
  obtain ⟨fpre, fpost, hfl, hleni⟩ := decomp_of_getElem _ _ _ hi
  obtain ⟨rpre, rpost, hsp, hlenj⟩ := decomp_of_getElem _ _ _ hj
  obtain ⟨pre, post, hrow, hlenk⟩ := decomp_of_getElem _ _ _ hk
  have hsetrow : row.set k (some s) = pre ++ some s :: post := by
    rw [hrow, ← hlenk, setAt_append]
  have hsetsp : f.spots.set j (row.set k (some s)) =
      rpre ++ (pre ++ some s :: post) :: rpost := by
    rw [hsetrow, hsp, ← hlenj, setAt_append]
  have hsetfl : floors.set i { f with spots := f.spots.set j (row.set k (some s)) } =
      fpre ++ { f with spots := rpre ++ (pre ++ some s :: post) :: rpost } :: fpost := by
    rw [hsetsp, hfl, ← hleni, setAt_append]
  rw [hres, hsetfl, hfl]
  have hfspots : f = { f with spots := rpre ++ (pre ++ some s₀ :: post) :: rpost } := by
    rw [← hrow, ← hsp]
  rw [hfspots]
  have hhold₀ : holdsNumber m (some s₀) = false := by simp [holdsNumber, hveh]
  have hhold₁ : holdsNumber m (some s) = (v.number == m) := by simp [holdsNumber, hs]
  simp only [numberCount, floorNumberCount, rowNumberCount, List.map_append,
    List.map_cons, List.sum_append, List.sum_cons, List.countP_append,
    List.countP_cons, hhold₀, hhold₁, if_false]
  cases hvm : (v.number == m) <;> (simp [hvm]; try omega)

/-- A successful unpark removes exactly one cell holding the returned
vehicle's number (and no cell holding any other number). -/
theorem unpark_numberCount {floors : List ParkingFloor} {n : String}
    {u : Vehicle} (h : (unparkFloors n floors).1 = some u) (m : String) :
    numberCount m floors =
      numberCount m (unparkFloors n floors).2 + (if u.number == m then 1 else 0) := by
  obtain ⟨fpre, f, fpost, hfl, hpf, hres, -⟩ := unparkFloors_some h
  have hrows : (unparkInRows n f.spots).1 = some u := by
    simpa [unparkInFloor] using hpf
  obtain ⟨rpre, row, rpost, hsp, hpr, hrows2, -⟩ := unparkInRows_some hrows
  obtain ⟨pre, spot, post, hrow, hveh, -, hrow2, -⟩ := unparkInRow_some hpr
  have hfloor2 : (unparkInFloor n f).2 =
      { f with spots := rpre ++ (pre ++ some { spot with vehicle := none } :: post) :: rpost } := by
    have hface : (unparkInFloor n f).2 = { f with spots := (unparkInRows n f.spots).2 } := rfl
    rw [hface, hrows2, hrow2]
  rw [hres, hfloor2, hfl]
  have hfspots : f = { f with spots := rpre ++ (pre ++ some spot :: post) :: rpost } := by
    rw [← hrow, ← hsp]
  rw [hfspots]
  have hhold₀ : holdsNumber m (some spot) = (u.number == m) := by
    simp [holdsNumber, hveh]
  have hhold₁ : holdsNumber m (some { spot with vehicle := none }) = false := by
    simp [holdsNumber]
  simp only [numberCount, floorNumberCount, rowNumberCount, List.map_append,
    List.map_cons, List.sum_append, List.sum_cons, List.countP_append,
    List.countP_cons, hhold₀, hhold₁, if_false]
  cases hum : (u.number == m) <;> (simp [hum]; try omega)

/-- No cell holds `n` exactly when the `n`-count is zero. -/
theorem numberCount_eq_zero_of_noHold {n : String} {floors : List ParkingFloor}
    (h : floorsHold n floors = false) :
    numberCount n floors = 0 := by
  have hfl := floorsHold_eq_false_iff.mp h
  refine List.sum_eq_zero ?_
  intro x hx
  obtain ⟨f, hf, rfl⟩ := List.mem_map.mp hx
  refine List.sum_eq_zero ?_
  intro y hy
  obtain ⟨row, hrow, rfl⟩ := List.mem_map.mp hy
  have hrows := floorHolds_eq_false_iff.mp (hfl f hf)
  exact List.countP_eq_zero.mpr fun c hc => by
    simp [rowHolds_eq_false_iff.mp (hrows row hrow) c hc]

/-- An all-free lot holds no vehicle at all. -/
theorem floorsHold_eq_false_of_allFree {floors : List ParkingFloor} {n : String}
    (h : allFree floors = true) :
    floorsHold n floors = false := by
  rw [floorsHold_eq_false_iff]
  intro f hf
  rw [floorHolds_eq_false_iff]
  intro row hrow
  rw [rowHolds_eq_false_iff]
  intro c hc
  have hcell := (List.all_eq_true.mp ((List.all_eq_true.mp
    ((List.all_eq_true.mp h) f hf)) row hrow)) c hc
  cases c with
  | none => simp [holdsNumber]
  | some spot =>
    have : spot.vehicle = none := by
      simpa [ParkingSpot.is_free, Option.isNone_iff_eq_none] using hcell
    simp [holdsNumber, this]

/-!
## The selection order of the first-available scan
-/

/-- `countP` distributes over `flatten`. -/
theorem countP_flatten {α : Type} (p : α → Bool) :
    ∀ (l : List (List α)), (l.flatten).countP p = (l.map (List.countP p)).sum
  | [] => rfl
  | xs :: l => by
    simp [List.countP_append, countP_flatten p l]

/-- The spot a row scan parks on is the first free compatible cell of
the row (updated with the vehicle). -/
theorem parkInRow_fst_eq_find {v : Vehicle} {row : List (Option ParkingSpot)} :
    (parkInRow v row).1 = ((row.find? (cellFreeType v.type)).join).map
      (fun s₀ => { s₀ with vehicle := some v }) := by
  induction row with
  | nil => simp [parkInRow]
  | cons c rest ih =>
    cases c with
    | none => simpa [parkInRow, cellFreeType] using ih
    | some spot =>
      cases hc : (spot.is_free && spot.spot_type == v.type) with
      | true =>
        simp [parkInRow, park_pos hc, List.find?_cons_of_pos, cellFreeType_some, hc]
      | false =>
        simpa [parkInRow, park_neg hc, List.find?_cons_of_neg, cellFreeType_some, hc]
          using ih

/-- The spot a grid scan parks on is the first free compatible cell of
the flattened (row-major) grid. -/
theorem parkInRows_fst_eq_find {v : Vehicle} {rows : List (List (Option ParkingSpot))} :
    (parkInRows v rows).1 = ((rows.flatten.find? (cellFreeType v.type)).join).map
      (fun s₀ => { s₀ with vehicle := some v }) := by
  induction rows with
  | nil => simp [parkInRows]
  | cons row rest ih =>
    rcases hpr : parkInRow v row with ⟨r1, row'⟩
    have hfst : r1 = ((row.find? (cellFreeType v.type)).join).map
        (fun s₀ => { s₀ with vehicle := some v }) := by
      have := @parkInRow_fst_eq_find v row
      rwa [hpr] at this
    cases hf : row.find? (cellFreeType v.type) with
    | none =>
      have hr1 : r1 = none := by simp [hfst, hf]
      subst hr1
      simp [parkInRows, hpr, List.flatten_cons, List.find?_append, hf, ih]
    | some c =>
      have hpc := List.find?_some hf
      cases c with
      | none => simp [cellFreeType] at hpc
      | some s₀ =>
        have hr1 : r1 = some { s₀ with vehicle := some v } := by simp [hfst, hf]
        subst hr1
        simp [parkInRows, hpr, List.flatten_cons, List.find?_append, hf]

/-- The spot the first-available scan parks on is the first free
compatible cell — floors in stored order, row-major within a floor. -/
theorem firstAvailable_fst_eq_find {v : Vehicle} {floors : List ParkingFloor} :
    (firstAvailableFindSpot v floors).1 =
      ((((floors.map fun f => f.spots.flatten).flatten).find?
        (cellFreeType v.type)).join).map (fun s₀ => { s₀ with vehicle := some v }) := by
  induction floors with
  | nil => simp [firstAvailableFindSpot]
  | cons f rest ih =>
    rcases hpf : parkInFloor v f with ⟨r1, f'⟩
    have hfst : r1 = ((f.spots.flatten.find? (cellFreeType v.type)).join).map
        (fun s₀ => { s₀ with vehicle := some v }) := by
      have h1 : (parkInFloor v f).1 = (parkInRows v f.spots).1 := rfl
      rw [hpf, parkInRows_fst_eq_find] at h1
      exact h1
    cases hf : f.spots.flatten.find? (cellFreeType v.type) with
    | none =>
      have hr1 : r1 = none := by simp [hfst, hf]
      subst hr1
      simp [firstAvailableFindSpot, hpf, List.find?_append, hf, ih]
    | some c =>
      have hpc := List.find?_some hf
      cases c with
      | none => simp [cellFreeType] at hpc
      | some s₀ =>
        have hr1 : r1 = some { s₀ with vehicle := some v } := by simp [hfst, hf]
        subst hr1
        simp [firstAvailableFindSpot, hpf, List.find?_append, hf]

/-!
## The free-count operations
-/

/-- The floor count agrees with the claim-side filter count. -/
theorem get_free_spots_eq_spec (f : ParkingFloor) (t : String) :
    f.get_free_spots t = specZoneFreeCount f t := by
  have hpred : (fun c => match c with
      | some spot => spot.is_free && spot.spot_type == t
      | none => false) = cellFreeType t := by
    funext c
    cases c <;> rfl
  rw [ParkingFloor.get_free_spots, specZoneFreeCount, ← List.countP_eq_length_filter,
    countP_flatten, hpred]

/-- The floors scan of `count_free_spots` reads the first floor whose
number matches, and `0` when none does. -/
theorem countFreeFloors_eq_find (fn : Int) (t : String) :
    ∀ floors : List ParkingFloor,
      countFreeFloors fn t floors =
        match floors.find? (fun f => f.floor_num == fn) with
        | some f => f.get_free_spots t
        | none => 0
  | [] => rfl
  | f :: rest => by
    cases hf : (f.floor_num == fn) with
    | true =>
      simp [countFreeFloors, hf, List.find?_cons_of_pos, hf]
    | false =>
      simpa [countFreeFloors, hf, List.find?_cons_of_neg]
        using countFreeFloors_eq_find fn t rest

/-- A successful floors unpark in single-cell form: one cell's spot has
its occupant (the returned vehicle) cleared, everything else is as it
was. -/
theorem unparkFloors_some_setCell {floors : List ParkingFloor} {n : String}
    {u : Vehicle} (h : (unparkFloors n floors).1 = some u) :
    ∃ i j k spot, getCell floors i j k = some (some spot) ∧
      spot.vehicle = some u ∧ u.number = n ∧
      (unparkFloors n floors).2 =
        setCell floors i j k (some { spot with vehicle := none }) := by
  obtain ⟨fpre, f, fpost, hfl, hpf, hres, -⟩ := unparkFloors_some h
  have hrows : (unparkInRows n f.spots).1 = some u := by
    simpa [unparkInFloor] using hpf
  obtain ⟨rpre, row, rpost, hsp, hpr, hrows2, -⟩ := unparkInRows_some hrows
  obtain ⟨cpre, spot, cpost, hrow, hveh, hnum, hrow2, -⟩ := unparkInRow_some hpr
  have hi : floors[fpre.length]? = some f := by
    rw [hfl]; exact getAt_append fpre fpost f
  have hj : f.spots[rpre.length]? = some row := by
    rw [hsp]; exact getAt_append rpre rpost row
  have hk : row[cpre.length]? = some (some spot) := by
    rw [hrow]; exact getAt_append cpre cpost (some spot)
  refine ⟨fpre.length, rpre.length, cpre.length, spot, ?_, hveh, hnum, ?_⟩
  · rw [getCell_eq_of hi hj]; exact hk
  · rw [setCell_eq_of hi hj]
    have e1 : row.set cpre.length (some { spot with vehicle := none }) =
        cpre ++ some { spot with vehicle := none } :: cpost := by
      rw [hrow, setAt_append]
    have e2 : f.spots.set rpre.length (row.set cpre.length (some { spot with vehicle := none })) =
        rpre ++ (unparkInRow n row).2 :: rpost := by
      rw [e1, hsp, setAt_append, hrow2]
    have e3 : { f with spots := f.spots.set rpre.length (row.set cpre.length
        (some { spot with vehicle := none })) } = (unparkInFloor n f).2 := by
      have hface : (unparkInFloor n f).2 = { f with spots := (unparkInRows n f.spots).2 } := rfl
      rw [hface, hrows2, e2]
    rw [e3, hres, hfl, setAt_append]

/-!
## Claims
-/

/-- C1.  Exclusivity invariant: a `ParkingSpot` holds at most one
vehicle by construction (`vehicle : Option Vehicle`), and this theorem
shows that once a cell holds a spot occupied by `u`, any single
operation (park, unpark, search, count) either leaves that spot exactly
as it is — in particular `is_free()` stays `false` — or the operation
was `unpark u.number` and the spot has exactly its occupant removed.
Hence an occupied spot stays occupied by the same vehicle until the
unpark that removes that vehicle. -/
theorem occupied_spot_persists_until_unpark (lot : ParkingLot) (op : LotOp)
    (i j k : Nat) (s : ParkingSpot) (u : Vehicle)
    (hcell : getCell lot.floors i j k = some (some s))
    (hocc : s.vehicle = some u) :
    ∃ s', getCell (lot.step op).floors i j k = some (some s') ∧
      ((s' = s ∧ s'.is_free = false) ∨
        (op = LotOp.unpark u.number ∧ s' = { s with vehicle := none })) := by
  have hfree : s.is_free = false := by simp [ParkingSpot.is_free, hocc]
  cases op with
  | search n => exact ⟨s, hcell, Or.inl ⟨rfl, hfree⟩⟩
  | countFree fn t => exact ⟨s, hcell, Or.inl ⟨rfl, hfree⟩⟩
  | park v =>
    cases hr : (lot.strategy.find_spot lot.floors v).1 with
    | none =>
      have h2 := (findSpot_none hr).1
      have hfl : (lot.step (LotOp.park v)).floors =
          (lot.strategy.find_spot lot.floors v).2 := rfl
      rw [hfl, h2]
      exact ⟨s, hcell, Or.inl ⟨rfl, hfree⟩⟩
    | some s₁ =>
      obtain ⟨i₀, f, j₀, row, k₀, s₀, hi, hj, hk, hveh, -, -, hres⟩ := findSpot_some hr
      have hset : (lot.strategy.find_spot lot.floors v).2 =
          setCell lot.floors i₀ j₀ k₀ (some s₁) := by
        rw [hres, setCell_eq_of hi hj]
      have hfl : (lot.step (LotOp.park v)).floors =
          (lot.strategy.find_spot lot.floors v).2 := rfl
      have hne : ¬(i₀ = i ∧ j₀ = j ∧ k₀ = k) := by
        rintro ⟨rfl, rfl, rfl⟩
        have hc₀ : getCell lot.floors i₀ j₀ k₀ = some (some s₀) := by
          rw [getCell_eq_of hi hj]; exact hk
        rw [hcell] at hc₀
        have hss : s = s₀ := by simpa using hc₀
        rw [hss, hveh] at hocc
        cases hocc
      rw [hfl, hset, getCell_setCell_ne hne]
      exact ⟨s, hcell, Or.inl ⟨rfl, hfree⟩⟩
  | unpark n =>
    cases hr : (unparkFloors n lot.floors).1 with
    | none =>
      have h2 := (unparkFloors_none hr).1
      have hfl : (lot.step (LotOp.unpark n)).floors = (unparkFloors n lot.floors).2 := rfl
      rw [hfl, h2]
      exact ⟨s, hcell, Or.inl ⟨rfl, hfree⟩⟩
    | some u' =>
      obtain ⟨i₀, j₀, k₀, spot, hc₀, hveh, hnum, hres⟩ := unparkFloors_some_setCell hr
      have hfl : (lot.step (LotOp.unpark n)).floors = (unparkFloors n lot.floors).2 := rfl
      by_cases heq : i₀ = i ∧ j₀ = j ∧ k₀ = k
      · obtain ⟨rfl, rfl, rfl⟩ := heq
        rw [hcell] at hc₀
        have hss : s = spot := by simpa using hc₀
        have hveh2 : s.vehicle = some u' := by rw [hss]; exact hveh
        have hu : u' = u := by
          rw [hveh2] at hocc
          simpa using hocc
        rw [hfl, hres, ← hss]
        refine ⟨{ s with vehicle := none }, ?_, Or.inr ⟨?_, rfl⟩⟩
        · exact getCell_setCell_eq hcell
        · rw [← hu, hnum]
      · rw [hfl, hres, getCell_setCell_ne heq]
        exact ⟨s, hcell, Or.inl ⟨rfl, hfree⟩⟩

/-- Witness for C1 at a concrete occupied lot and an unrelated unpark. -/
theorem occupied_spot_persists_until_unpark_witness :
    ∃ s', getCell (lotOneOcc.step (LotOp.unpark "KA09")).floors 0 0 0 = some (some s') ∧
      ((s' = occCarSpot ∧ s'.is_free = false) ∨
        (LotOp.unpark "KA09" = LotOp.unpark vehA.number ∧
          s' = { occCarSpot with vehicle := none })) :=
  occupied_spot_persists_until_unpark lotOneOcc (LotOp.unpark "KA09") 0 0 0
    occCarSpot vehA (by decide) (by decide)

/-- C2 counterexample: `park` reports the two failure modes (occupied
spot, type mismatch) with the very same result `False`; there is no
distinct `AlreadyOccupied` / `TypeMismatch` error reporting. -/
theorem park_failure_modes_indistinguishable :
    occCarSpot.park vehA = (false, occCarSpot) ∧
    freeBikeSpot.park vehA = (false, freeBikeSpot) ∧
    (occCarSpot.park vehA).1 = (freeBikeSpot.park vehA).1 := by
  decide

/-- C2 (amended).  `park` fails — returning `False` and leaving the spot
unchanged, with no distinct error codes — whenever the spot is occupied
or the vehicle's type differs from `spot_type`; otherwise it sets the
occupant to the vehicle and returns `True`.  In particular it never
succeeds when the types differ. -/
theorem park_semantics (s : ParkingSpot) (v : Vehicle) :
    (s.vehicle = none ∧ s.spot_type = v.type ∧
      s.park v = (true, { s with vehicle := some v })) ∨
    (¬(s.vehicle = none ∧ s.spot_type = v.type) ∧ s.park v = (false, s)) := by
  cases hc : (s.is_free && s.spot_type == v.type) with
  | true =>
    obtain ⟨h1, h2⟩ := park_cond_iff.mp hc
    exact Or.inl ⟨h1, h2, park_pos hc⟩
  | false =>
    refine Or.inr ⟨?_, park_neg hc⟩
    intro hcontra
    have := park_cond_iff.mpr hcontra
    rw [hc] at this
    cases this

/-- C3 counterexample: `find_spot` mutates a slot — the floors after a
first-available scan differ from the floors before it. -/
theorem find_spot_mutates :
    (firstAvailableFindSpot vehA lotOneFree.floors).2 ≠ lotOneFree.floors := by
  decide

/-- C3 (amended).  The strategies' `find_spot` is not pure: it performs
the occupancy mutation itself, via the `spot.park(vehicle)` call inside
its scan, and `park_vehicle` merely returns what `find_spot` produced.
What survives of the claim: the mutation is confined to the single
selected slot — the scan touches a slot only if it was free and
type-compatible, every other slot is left exactly as it was, and a
failed scan changes nothing. -/
theorem find_spot_mutates_only_selected_slot (lot : ParkingLot) (v : Vehicle) :
    ((lot.park_vehicle v).1 = none ∧ (lot.park_vehicle v).2 = lot) ∨
    (∃ s i j k s₀, (lot.park_vehicle v).1 = some s ∧
      getCell lot.floors i j k = some (some s₀) ∧ s₀.vehicle = none ∧
      s₀.spot_type = v.type ∧ s = { s₀ with vehicle := some v } ∧
      (lot.park_vehicle v).2 =
        { lot with floors := setCell lot.floors i j k (some s) }) := by
  cases hr : (lot.strategy.find_spot lot.floors v).1 with
  | none =>
    left
    have h2 := (findSpot_none hr).1
    constructor
    · exact hr
    · show { lot with floors := (lot.strategy.find_spot lot.floors v).2 } = lot
      rw [h2]
  | some s =>
    right
    obtain ⟨i, f, j, row, k, s₀, hi, hj, hk, hveh, htype, hs, hres⟩ := findSpot_some hr
    refine ⟨s, i, j, k, s₀, hr, ?_, hveh, htype, hs, ?_⟩
    · rw [getCell_eq_of hi hj]; exact hk
    · show { lot with floors := (lot.strategy.find_spot lot.floors v).2 } = _
      rw [hres, setCell_eq_of hi hj]

/-- C4.  Exhaustion with atomicity: when every slot of the vehicle's
type is occupied (or no slot of that type exists at all),
`park_vehicle` returns the no-capacity result `None` and the lot —
every slot's occupancy included — is exactly as before the call. -/
theorem park_vehicle_exhaustion (lot : ParkingLot) (v : Vehicle)
    (h : ∀ f ∈ lot.floors, ∀ row ∈ f.spots, ∀ c ∈ row,
      match c with
      | some s => s.spot_type = v.type → ¬s.vehicle = none
      | none => True) :
    lot.park_vehicle v = (none, lot) := by
  have hfree : hasFreeCompatible lot.floors v = false := by
    rw [hasFreeCompatible_eq_false_iff]
    intro f hf row hrow c hc
    have hcell := h f hf row hrow c hc
    cases c with
    | none => rfl
    | some spot =>
      cases hcf : cellFreeType v.type (some spot) with
      | false => rfl
      | true =>
        rw [cellFreeType_some] at hcf
        obtain ⟨h1, h2⟩ := park_cond_iff.mp hcf
        exact absurd h1 (hcell h2)
  have hns := @findSpot_of_noFree lot.strategy _ _ hfree
  show ((lot.strategy.find_spot lot.floors v).1,
    { lot with floors := (lot.strategy.find_spot lot.floors v).2 }) = (none, lot)
  rw [hns]

/-- Witness for C4: a lot whose only CAR spot is occupied rejects a CAR
and is left untouched. -/
theorem park_vehicle_exhaustion_witness : lotOneOcc.park_vehicle vehA = (none, lotOneOcc) :=
  park_vehicle_exhaustion lotOneOcc vehA (by
    intro f hf row hrow c hc
    simp only [lotOneOcc, List.mem_singleton] at hf
    subst hf
    simp only [List.mem_singleton] at hrow
    subst hrow
    simp only [List.mem_singleton] at hc
    subst hc
    decide)

/-- C5 counterexample: after `allocate(u)` then `release(u.id)`, the
free count equals its value before the allocate — it does not exceed it
by 1 as the claim states ("increases by exactly 1 relative to before
the allocate"). -/
theorem roundtrip_count_not_plus_one :
    ¬(((lotOneFree.park_vehicle vehA).2.unpark_vehicle "KA01").2.count_free_spots 0
        VehicleType.CAR = lotOneFree.count_free_spots 0 VehicleType.CAR + 1) := by
  decide

/-- C5 (amended).  Round trip: if `v`'s number occupies no slot and
`park_vehicle v` succeeds, the subsequent `unpark_vehicle v.number`
returns exactly `v` and restores the lot — the assigned slot included —
to precisely its state before the park; consequently the free count for
`v`'s type increases by exactly 1 relative to its value after the
allocate (returning to its pre-allocate value, not exceeding it). -/
theorem park_unpark_roundtrip (lot : ParkingLot) (v : Vehicle) (s : ParkingSpot)
    (lot' : ParkingLot)
    (hfresh : floorsHold v.number lot.floors = false)
    (hpark : lot.park_vehicle v = (some s, lot')) :
    lot'.unpark_vehicle v.number = (some v, lot) ∧
    totalFree v.type lot'.floors + 1 = totalFree v.type lot.floors := by
  have h1 : (lot.strategy.find_spot lot.floors v).1 = some s := by
    have := congrArg Prod.fst hpark
    simpa [ParkingLot.park_vehicle] using this
  have h2 : lot' = { lot with floors := (lot.strategy.find_spot lot.floors v).2 } := by
    have := congrArg Prod.snd hpark
    simpa [ParkingLot.park_vehicle] using this.symm
  obtain ⟨i, f, j, row, k, s₀, hi, hj, hk, hveh, htype, hs, hres⟩ := findSpot_some h1
  have hfls : ∀ g ∈ lot.floors, floorHolds v.number g = false :=
    floorsHold_eq_false_iff.mp hfresh
  have hfmem : f ∈ lot.floors := List.mem_iff_getElem?.mpr ⟨i, hi⟩
  have hrowsH : ∀ r ∈ f.spots, rowHolds v.number r = false :=
    floorHolds_eq_false_iff.mp (hfls f hfmem)
  have hrmem : row ∈ f.spots := List.mem_iff_getElem?.mpr ⟨j, hj⟩
  have hcellsH : ∀ c ∈ row, holdsNumber v.number c = false :=
    rowHolds_eq_false_iff.mp (hrowsH row hrmem)
  have hrowRes : unparkInRow v.number (row.set k (some s)) = (some v, row) := by
    rw [hs]
    exact unparkRestore_row hcellsH hk hveh rfl
  have hrowsRes : unparkInRows v.number (f.spots.set j (row.set k (some s))) =
      (some v, f.spots) :=
    unparkRestore_rows hrowsH hj hrowRes
  have hfloorRes : unparkInFloor v.number
      { f with spots := f.spots.set j (row.set k (some s)) } = (some v, f) := by
    have hface : unparkInFloor v.number
        { f with spots := f.spots.set j (row.set k (some s)) } =
        ((unparkInRows v.number (f.spots.set j (row.set k (some s)))).1,
         { f with spots := (unparkInRows v.number (f.spots.set j (row.set k (some s)))).2 }) := rfl
    rw [hface, hrowsRes]
  have hfloorsRes : unparkFloors v.number (lot.floors.set i
      { f with spots := f.spots.set j (row.set k (some s)) }) = (some v, lot.floors) :=
    unparkRestore_floors hfls hi hfloorRes
  have hfloors' : lot'.floors = lot.floors.set i
      { f with spots := f.spots.set j (row.set k (some s)) } := by
    rw [h2]
    exact hres
  constructor
  · show ((unparkFloors v.number lot'.floors).1,
      { lot' with floors := (unparkFloors v.number lot'.floors).2 }) = (some v, lot)
    rw [hfloors', hfloorsRes, h2]
  · have hc := @park_totalFree lot.strategy _ _ _ h1 v.type
    rw [h2]
    simpa using hc

/-- Witness for C5 at the one-spot lot. -/
theorem park_unpark_roundtrip_witness :
    lotOneOcc.unpark_vehicle vehA.number = (some vehA, lotOneFree) ∧
    totalFree vehA.type lotOneOcc.floors + 1 = totalFree vehA.type lotOneFree.floors :=
  park_unpark_roundtrip lotOneFree vehA occCarSpot lotOneOcc (by decide) (by decide)

/-- C6.  FirstAvailable correctness and determinism: the spot
`FirstAvailableStrategy.find_spot` returns is exactly the first
populated, free, type-matching slot in scan order — floors in stored
(insertion) order, row-major within each floor — updated with the
parked vehicle, and `None` exactly when no such slot exists.  The scan
is a pure function of the floors and vehicle, so equal configuration
and occupancy states always select the same slot. -/
theorem first_available_selects_first_free_compatible
    (floors : List ParkingFloor) (v : Vehicle) :
    (firstAvailableFindSpot v floors).1 =
      (specFirstFree floors v).map (fun s₀ => { s₀ with vehicle := some v }) := by
  rw [firstAvailable_fst_eq_find]
  rfl

/-- C7.  LowestZoneFirst refinement: `LowestFloorStrategy.find_spot`
selects exactly the spot `FirstAvailableStrategy.find_spot` selects on
the same floors stably sorted ascending by `floor_num` (ties kept in
insertion order) — Python's `sorted` is such a stable sort. -/
theorem lowest_floor_refines_first_available
    (floors : List ParkingFloor) (v : Vehicle) :
    (lowestFloorFindSpot v floors).1 =
      (firstAvailableFindSpot v (stableSortFloors floors)).1 := by
  have h := @lowestFloorGo_fst v (sortedEnumFloors floors) floors
  simpa [lowestFloorFindSpot, stableSortFloors, sortedEnumFloors] using h

/-- C8.  Free-count correctness: a floor's `get_free_spots t` counts
exactly the populated, free grid cells of type `t` (unpopulated cells
never counted), and `count_free_spots` returns that count for the first
floor whose `floor_num` matches, and `0` — not an error — when no floor
matches. -/
theorem free_count_correct :
    (∀ (f : ParkingFloor) (t : String), f.get_free_spots t = specZoneFreeCount f t) ∧
    (∀ (lot : ParkingLot) (fn : Int) (t : String),
      lot.count_free_spots fn t = specLotFreeCount lot fn t) := by
  refine ⟨get_free_spots_eq_spec, ?_⟩
  intro lot fn t
  rw [ParkingLot.count_free_spots, countFreeFloors_eq_find, specLotFreeCount]
  cases h : lot.floors.find? (fun f => f.floor_num == fn) with
  | none => rfl
  | some f => exact get_free_spots_eq_spec f t

/-- C9 counterexample: from an all-free lot with two CAR spots, the
sequence `park_vehicle vehA; park_vehicle vehA` leaves the very same
vehicle occupying two distinct slots — the code never rejects a vehicle
that already occupies a slot. -/
theorem same_vehicle_in_two_slots :
    getCell ((lotTwoFree.park_vehicle vehA).2.park_vehicle vehA).2.floors 0 0 0 =
      some (some occCarSpot) ∧
    getCell ((lotTwoFree.park_vehicle vehA).2.park_vehicle vehA).2.floors 0 0 1 =
      some (some occCarSpot2) := by
  decide

/-- C9 (amended).  Single-binding lifecycle under fresh parks: starting
from an all-free lot, if every `park_vehicle` call uses a vehicle whose
number does not currently occupy any slot (the caller discipline the
spec's lifecycle assumes), then at every reachable state each vehicle
number occupies at most one slot — no vehicle occupies two distinct
slots simultaneously. -/
theorem single_binding_of_fresh {lot : ParkingLot} (h : ReachableFresh lot) :
    ∀ n, numberCount n lot.floors ≤ 1 := by
  induction h with
  | init name floors strat hfree =>
    intro n
    have h0 : numberCount n floors = 0 :=
      numberCount_eq_zero_of_noHold (floorsHold_eq_false_of_allFree hfree)
    simp [h0]
  | park lot v hre hfresh ih =>
    intro n
    have hfl : ((lot.park_vehicle v).2).floors =
        (lot.strategy.find_spot lot.floors v).2 := rfl
    rw [hfl]
    cases hr : (lot.strategy.find_spot lot.floors v).1 with
    | none =>
      rw [(findSpot_none hr).1]
      exact ih n
    | some s =>
      rw [park_numberCount hr n]
      cases hnm : (v.number == n) with
      | true =>
        have hn : v.number = n := by simpa using hnm
        have h0 : numberCount n lot.floors = 0 :=
          numberCount_eq_zero_of_noHold (hn ▸ hfresh)
        simp [h0]
      | false => simpa using ih n
  | unpark lot n' hre ih =>
    intro n
    have hfl : ((lot.unpark_vehicle n').2).floors = (unparkFloors n' lot.floors).2 := rfl
    rw [hfl]
    cases hr : (unparkFloors n' lot.floors).1 with
    | none =>
      rw [(unparkFloors_none hr).1]
      exact ih n
    | some u =>
      have hcnt := unpark_numberCount hr n
      have hle := ih n
      cases hum : (u.number == n) with
      | true =>
        rw [hum] at hcnt
        simp at hcnt
        omega
      | false =>
        rw [hum] at hcnt
        simp at hcnt
        omega

/-- Witness for C9 after one fresh park on the two-spot lot. -/
theorem single_binding_of_fresh_witness :
    numberCount "KA01" ((lotTwoFree.park_vehicle vehA).2).floors ≤ 1 :=
  single_binding_of_fresh
    (ReachableFresh.park lotTwoFree vehA
      (ReachableFresh.init "L" lotTwoFree.floors ParkingStrategy.firstAvailable
        (by decide))
      (by decide)) "KA01"

/-- C10.  Frame property of `unpark_vehicle`: either no slot holds the
number — then the result is `None` and the lot is unchanged — or the
first slot in scan order (floors in stored order, rows then columns)
holding it has exactly its occupant cleared and that vehicle is
returned; the decomposition shows every other slot, and every slot's
`spot_type`, `row` and `col`, unchanged. -/
theorem unpark_frame (lot : ParkingLot) (n : String) :
    ((lot.unpark_vehicle n).1 = none ∧ (lot.unpark_vehicle n).2 = lot ∧
      floorsHold n lot.floors = false) ∨
    (∃ u fpre f fpost rpre row rpost cpre spot cpost,
      (lot.unpark_vehicle n).1 = some u ∧ u.number = n ∧ spot.vehicle = some u ∧
      lot.floors = fpre ++ f :: fpost ∧
      f.spots = rpre ++ row :: rpost ∧
      row = cpre ++ some spot :: cpost ∧
      (lot.unpark_vehicle n).2 = { lot with floors :=
        fpre ++ { f with spots :=
          rpre ++ (cpre ++ some { spot with vehicle := none } :: cpost) :: rpost } :: fpost } ∧
      (∀ g ∈ fpre, floorHolds n g = false) ∧
      (∀ r ∈ rpre, rowHolds n r = false) ∧
      (∀ c ∈ cpre, holdsNumber n c = false)) := by
  cases hr : (unparkFloors n lot.floors).1 with
  | none =>
    left
    obtain ⟨h1, h2⟩ := unparkFloors_none hr
    refine ⟨hr, ?_, h2⟩
    show { lot with floors := (unparkFloors n lot.floors).2 } = lot
    rw [h1]
  | some u =>
    right
    obtain ⟨fpre, f, fpost, hfl, hpf, hres, hfpre⟩ := unparkFloors_some hr
    have hrows : (unparkInRows n f.spots).1 = some u := by
      simpa [unparkInFloor] using hpf
    obtain ⟨rpre, row, rpost, hsp, hpr, hrows2, hrpre⟩ := unparkInRows_some hrows
    obtain ⟨cpre, spot, cpost, hrow, hveh, hnum, hrow2, hcpre⟩ := unparkInRow_some hpr
    refine ⟨u, fpre, f, fpost, rpre, row, rpost, cpre, spot, cpost,
      hr, hnum, hveh, hfl, hsp, hrow, ?_, hfpre, hrpre, hcpre⟩
    show { lot with floors := (unparkFloors n lot.floors).2 } = _
    have hface : (unparkInFloor n f).2 = { f with spots := (unparkInRows n f.spots).2 } := rfl
    rw [hres, hface, hrows2, hrow2]

/-- Witness for C10 at the occupied one-spot lot. -/
theorem unpark_frame_witness :
    ((lotOneOcc.unpark_vehicle "KA01").1 = none ∧
      (lotOneOcc.unpark_vehicle "KA01").2 = lotOneOcc ∧
      floorsHold "KA01" lotOneOcc.floors = false) ∨
    (∃ u fpre f fpost rpre row rpost cpre spot cpost,
      (lotOneOcc.unpark_vehicle "KA01").1 = some u ∧ u.number = "KA01" ∧
      spot.vehicle = some u ∧
      lotOneOcc.floors = fpre ++ f :: fpost ∧
      f.spots = rpre ++ row :: rpost ∧
      row = cpre ++ some spot :: cpost ∧
      (lotOneOcc.unpark_vehicle "KA01").2 = { lotOneOcc with floors :=
        fpre ++ { f with spots :=
          rpre ++ (cpre ++ some { spot with vehicle := none } :: cpost) :: rpost } :: fpost } ∧
      (∀ g ∈ fpre, floorHolds "KA01" g = false) ∧
      (∀ r ∈ rpre, rowHolds "KA01" r = false) ∧
      (∀ c ∈ cpre, holdsNumber "KA01" c = false)) :=
  unpark_frame lotOneOcc "KA01"

/-- Extra witness for C2's amended statement at a concrete free spot. -/
theorem park_semantics_witness :
    (freeCarSpot.vehicle = none ∧ freeCarSpot.spot_type = vehA.type ∧
      freeCarSpot.park vehA = (true, { freeCarSpot with vehicle := some vehA })) ∨
    (¬(freeCarSpot.vehicle = none ∧ freeCarSpot.spot_type = vehA.type) ∧
      freeCarSpot.park vehA = (false, freeCarSpot)) :=
  park_semantics freeCarSpot vehA
